import Mathlib

/-!
xc: command interception, dispatch and file transfer encoding.

A shallow embedding of `server/server.go` (the command interceptor and
dispatcher with its registry of forwards) and of `utils/utils.go` (the
`Forward` record and the base64 `Save` / `Load` pair), together with the
pieces of the Go standard library these functions call
(`strings.TrimSuffix`, `strings.Split`, `strconv.Atoi`,
`base64.StdEncoding`).

Go strings and byte slices are lists of bytes.  One call of `handleCmd` is
a function from the package state and the chunk to its outcome: the returned
slice, the state afterwards, and the `go` statements, channel sends and log
lines it executes, in program order.  The state holds, besides the registry,
the quit channels on which a forwarding goroutine receives: `go rfwd(...)`
adds its channel, `go lfwd(fwd)` adds its channel when `net.Listen`
succeeds, and not when it fails, where `lfwd` returns at once.  A send on
an unbuffered channel completes when a goroutine receives on it; where none
does, the call never returns.  A run-time panic (`index out of range`) is an
outcome of its own.
-/

set_option autoImplicit false

/-- A byte, the element type of Go `string` and `[]byte`. -/
abbrev Byte := Fin 256

/-- A Go `string` / `[]byte`: a finite sequence of bytes. -/
abbrev GoString := List Byte

/-- The bytes of an ASCII literal of the source text. -/
def str (s : String) : GoString := s.toList.map (fun c => Fin.ofNat c.toNat)

/-- The space byte, the separator `handleCmd` splits on. -/
def sp : Byte := 32

/-- The line feed byte. -/
def lf : Byte := 10

/-- The carriage return byte. -/
def cr : Byte := 13

namespace strings

/-- Go `strings.TrimSuffix(s, suffix)`: `s` without the trailing `suffix`
when `s` ends with it, otherwise `s` itself. -/
def TrimSuffix (s suffix : GoString) : GoString :=
  if suffix.isSuffixOf s then s.take (s.length - suffix.length) else s

/-- Go `strings.Split(s, sep)` for a one-byte separator, the only way the
program calls it: the pieces of `s` between consecutive occurrences of
`sep`.  The result always has at least one element (`Split("", " ")` is
`[""]`). -/
def Split : GoString → Byte → List GoString
  | [], _ => [[]]
  | c :: cs, sep =>
    if c = sep then [] :: Split cs sep
    else
      match Split cs sep with
      | [] => [[c]]
      | t :: ts => (c :: t) :: ts

end strings

namespace strconv

/-- Width of Go `int` on the 64-bit platforms the tool is built for. -/
def intSize : Nat := 64

/-- Largest value of Go `int`. -/
def maxInt : Int := 2 ^ (intSize - 1) - 1

/-- Smallest value of Go `int`. -/
def minInt : Int := -(2 ^ (intSize - 1))

/-- Value of an ASCII decimal digit, `none` for any other byte. -/
def digit (c : Byte) : Option Nat :=
  if 48 ≤ c.val ∧ c.val ≤ 57 then some (c.val - 48) else none

/-- Largest value of Go `uint64`. -/
def maxUint64 : Nat := 2 ^ 64 - 1

/-- How Go `strconv.ParseUint(s, 10, 64)` ends: with a value, with a syntax
error, or with a range error (the library then returns the largest
`uint64`). -/
inductive UintResult where
  | ok (n : Nat)
  | errSyntax
  | errRange
deriving DecidableEq, Repr

/-- The loop of Go `strconv.ParseUint(s, 10, 64)` over the bytes of `s`, with
`n` the value read so far.  Byte by byte, in this order: a byte that is not
a decimal digit is a syntax error; `n >= cutoff`, where
`cutoff = maxUint64/10 + 1`, is a range error (`n*10` overflows); a sum
`n*10 + d` above `maxUint64` is a range error.  The first error met ends the
loop. -/
def parseUintLoop : GoString → Nat → UintResult
  | [], n => .ok n
  | c :: cs, n =>
    match digit c with
    | none => .errSyntax
    | some d =>
      if n ≥ maxUint64 / 10 + 1 then .errRange
      else if n * 10 + d > maxUint64 then .errRange
      else parseUintLoop cs (n * 10 + d)

/-- Go `strconv.ParseUint(s, 10, 64)`: the empty string is a syntax
error. -/
def ParseUint (s : GoString) : UintResult :=
  if s = [] then .errSyntax else parseUintLoop s 0

/-- Go `strconv.Atoi(s)`: the value and whether `err == nil`.  An optional
sign is followed by the digits `ParseUint` reads; a syntax error yields
`(0, false)`, a range error or a value outside `int` yields the nearest
bound of `int` and `false`.  (The fast path of the library for short strings
gives the same results.) -/
def Atoi (s : GoString) : Int × Bool :=
  let neg := s.head? = some 45
  let body := if s.head? = some 45 ∨ s.head? = some 43 then s.tail else s
  match ParseUint body with
  | .errSyntax => (0, false)
  | .errRange => if neg then (minInt, false) else (maxInt, false)
  | .ok n =>
    if neg then
      if (n : Int) > -minInt then (minInt, false) else (-(n : Int), true)
    else
      if (n : Int) > maxInt then (maxInt, false) else ((n : Int), true)

/-- The ASCII digit of `d < 10`. -/
def digitByte (d : Nat) : Byte := Fin.ofNat (48 + d % 10)

/-- The digits of `n`, most significant first; `fuel` bounds the number of
digits. -/
def itoaDigits : Nat → Nat → GoString
  | 0, _ => []
  | fuel + 1, n =>
    if n < 10 then [digitByte n] else itoaDigits fuel (n / 10) ++ [digitByte (n % 10)]

/-- Go `strconv.Itoa(i)` for a non-negative `i`: its decimal digits, most
significant first. -/
def Itoa (i : Nat) : GoString := itoaDigits (i + 1) i

end strconv

namespace base64

/-- The alphabet of `base64.StdEncoding` (`encodeStd`). -/
def encodeStd : GoString :=
  str "ABCDEFGHIJKLMNOPQRSTUVWXYZabcdefghijklmnopqrstuvwxyz0123456789+/"

/-- The padding character of `base64.StdEncoding`. -/
def padChar : Byte := 61

/-- The table lookup `enc.encode[v & 0x3F]`. -/
def encode (v : Nat) : Byte := encodeStd.getD (v % 64) 0

/-- The table `enc.decodeMap`: the position of a byte in the alphabet,
`none` (`0xff` in the library) for a byte outside it. -/
def decodeMap (c : Byte) : Option Nat :=
  if encodeStd.indexOf c < 64 then some (encodeStd.indexOf c) else none

/-- Go `base64.StdEncoding.EncodeToString(src)`: every three bytes become
four alphabet characters; a final group of one or two bytes is padded with
`=` to four characters. -/
def EncodeToString : List Byte → GoString
  | a :: b :: c :: rest =>
    let val := a.val * 65536 + b.val * 256 + c.val
    encode (val / 262144) :: encode (val / 4096) :: encode (val / 64) :: encode val ::
      EncodeToString rest
  | [a, b] =>
    let val := a.val * 65536 + b.val * 256
    [encode (val / 262144), encode (val / 4096), encode (val / 64), padChar]
  | [a] =>
    let val := a.val * 65536
    [encode (val / 262144), encode (val / 4096), padChar, padChar]
  | [] => []

/-- The loops of the decoder that skip over `\n` and `\r`. -/
def skipNewlines : GoString → GoString
  | [] => []
  | c :: cs => if c = lf ∨ c = cr then skipNewlines cs else c :: cs

/-- The end of `decodeQuantum`: the 6-bit values read so far (at most four,
missing ones are zero) are put together into a 24-bit value, of which the
first `dlen - 1` bytes are written. -/
def quantum (dbuf : List Nat) : List Byte :=
  let val := dbuf.getD 0 0 * 262144 + dbuf.getD 1 0 * 4096 + dbuf.getD 2 0 * 64 + dbuf.getD 3 0
  ([Fin.ofNat (val / 65536), Fin.ofNat (val / 256), Fin.ofNat val] : List Byte).take
    (dbuf.length - 1)

/-- The decoding loop of `base64.StdEncoding` (`Decode` calling
`decodeQuantum`), on the input still to read and the 6-bit values `dbuf` of
the quantum being read: alphabet characters fill the quantum, `\r` and
`\n` are ignored wherever they stand, padding is accepted only to complete
a quantum of two or three characters and only at the end of the input
(newlines apart).  `none` is a `CorruptInputError`. -/
def decode : GoString → List Nat → Option (List Byte)
  | [], dbuf => if dbuf = [] then some [] else none
  | c :: rest, dbuf =>
    match decodeMap c with
    | some v =>
      if dbuf.length = 3 then (decode rest []).map (fun out => quantum (dbuf ++ [v]) ++ out)
      else decode rest (dbuf ++ [v])
    | none =>
      if c = lf ∨ c = cr then decode rest dbuf
      else if c ≠ padChar then none
      else if dbuf.length = 2 then
        match skipNewlines rest with
        | [] => none
        | c2 :: rest2 =>
          if c2 = padChar ∧ skipNewlines rest2 = [] then some (quantum dbuf) else none
      else if dbuf.length = 3 then
        if skipNewlines rest = [] then some (quantum dbuf) else none
      else none

/-- Go `base64.StdEncoding.DecodeString(s)`: the decoded bytes, or `none`
when the library returns an error. -/
def DecodeString (s : GoString) : Option (List Byte) := decode s []

end base64

namespace utils

/-- A Go channel, identified by the order in which `make(chan bool)`
created it. -/
abbrev Chan := Nat

/-- Forward is the port forwarding struct (`utils.Forward`). -/
structure Forward where
  LPort : GoString
  RPort : GoString
  Addr : GoString
  Quit : Chan
  Local : Bool
  Active : Bool
deriving DecidableEq, Repr

/-- The files `ioutil.ReadFile` and `ioutil.WriteFile` work on: the content
readable at each path (`none`: reading fails), and the paths at which a
write succeeds. -/
structure FS where
  files : GoString → Option (List Byte)
  writable : GoString → Bool

/-- Go `ioutil.ReadFile(name)`: the content, or `none` for an error. -/
def ReadFile (fs : FS) (name : GoString) : Option (List Byte) := fs.files name

/-- Go `ioutil.WriteFile(name, data, 0644)`: the files afterwards, or `none`
for an error. -/
def WriteFile (fs : FS) (name : GoString) (data : List Byte) : Option FS :=
  if fs.writable name then some { fs with files := Function.update fs.files name (some data) }
  else none

/-- Save base64 encoded file to disk (`utils.Save`): the files afterwards
and the returned boolean. -/
def Save (fs : FS) (dst data : GoString) : FS × Bool :=
  match base64.DecodeString data with
  | none => (fs, false)
  | some raw =>
    match WriteFile fs dst raw with
    | none => (fs, false)
    | some fs1 => (fs1, true)

/-- Load file from disk and return base64 encoded representation
(`utils.Load`). -/
def Load (fs : FS) (src : GoString) : GoString × Bool :=
  match ReadFile fs src with
  | none => ([], false)
  | some data => (base64.EncodeToString data, true)

/-- The bytes `utils.UploadListen` (and likewise `utils.DownloadConnect`)
writes to its stream once it has one: `fmt.Sprintf("%s\r\n", content)` for
the `content` that `Load(src)` returns. -/
def UploadListen (fs : FS) (src : GoString) : GoString :=
  (Load fs src).1 ++ str "\r\n"

/-- What `utils.DownloadListen` (and likewise `utils.UploadConnect`) does
with the bytes `line` it read from its stream to the end:
`Save(dst, string(line))`. -/
def DownloadListen (fs : FS) (dst line : GoString) : FS × Bool :=
  Save fs dst line

/-- A file system with the one file `a.bin`, of three bytes, in which every
write succeeds. -/
def fsExample : FS :=
  { files := fun name => if name = str "a.bin" then some [0, 255, 16] else none
    writable := fun _ => true }

end utils

namespace server

open utils

/-- A goroutine started by a `go` statement of `handleCmd`, with the
arguments it is started with. -/
inductive Task where
  | exit
  | DownloadListen (dst : GoString)
  | UploadListen (src : GoString)
  | lfwd (fwd : Forward)
  | rfwd (fwd : Forward)
deriving DecidableEq, Repr

/-- What one call of `handleCmd` does besides returning: the goroutines it
starts, the channels on which its send of `true` was received, and the lines
it logs. -/
structure Effects where
  started : List Task
  quit : List Chan
  logged : List GoString
deriving DecidableEq, Repr

/-- No goroutine started, nothing sent, nothing logged. -/
def Effects.none : Effects := ⟨[], [], []⟩

/-- The state `handleCmd` works on: the registry `activeForwards`; the
number of channels made so far (the identity of the next `make(chan bool)`);
and `receivers`, the quit channels on which a forwarding goroutine started
by an earlier command receives, at once or as soon as it runs (a send on one
of them completes; a send on any other channel never does). -/
structure State where
  activeForwards : List Forward
  chans : Nat
  receivers : List Chan
deriving DecidableEq, Repr

/-- How a call of `handleCmd` ends: it returns a byte slice; or the Go
runtime stops the program with `index out of range`; or it stays for ever in
the send `forward.Quit <- true` on the channel `ch`, in the state `st`,
because no goroutine receives on `ch`. -/
inductive Outcome where
  | returned (out : GoString) (eff : Effects) (st : State)
  | indexOutOfRange
  | blockedOnSend (ch : Chan) (st : State)
deriving DecidableEq, Repr

/-- How the goroutine `lfwd(fwd)` goes on: the bind fails, it logs the
error and returns; or it listens, and waits on `fwd.Quit`. -/
inductive LfwdRun where
  | bindFailed
  | listening (quit : Chan)
deriving DecidableEq, Repr

/-- The start of `lfwd` of `server.go`: `Listen addr` tells whether
`net.Listen("tcp", addr)` succeeds. -/
def lfwd (Listen : GoString → Bool) (fwd : Forward) : LfwdRun :=
  if Listen (str ":" ++ fwd.LPort) then .listening fwd.Quit else .bindFailed

/-- The channels on which a started `lfwd` goroutine receives: `fwd.Quit`
when it listens, none when the bind failed. -/
def LfwdRun.receivers : LfwdRun → List Chan
  | .bindFailed => []
  | .listening quit => [quit]

/-- The goroutine `rfwd(fwd, s, c)` of `server.go` starts its inner
goroutine and then stays in `for { select { case <-fwd.Quit: return } }`:
the channel on which it receives. -/
def rfwd (fwd : Forward) : Chan := fwd.Quit

/-- The struct literal `utils.Forward{lport, rport, raddr, make(chan bool)}`
of `handleCmd`: the four listed values in field order; the literal names no
value for `Local` and `Active`, which keep the zero value. -/
def mkForward (lport rport raddr : GoString) (quit : Chan) : Forward :=
  { LPort := lport, RPort := rport, Addr := raddr, Quit := quit,
    Local := false, Active := false }

/-- The loop of `handleCmd` over `activeForwards` that clears
`portAvailable` at the first item whose `LPort` equals `lport`. -/
def portAvailable (activeForwards : List Forward) (lport : GoString) : Bool :=
  match activeForwards with
  | [] => true
  | item :: rest => if item.LPort = lport then false else portAvailable rest lport

/-- The tokens `handleCmd` switches on: the chunk without a trailing
`"\r\n"` and then without a trailing `"\n"`, split at spaces. -/
def argvOf (buf : GoString) : List GoString :=
  let cmd := strings.TrimSuffix buf (str "\r\n")
  let cmd := strings.TrimSuffix cmd (str "\n")
  strings.Split cmd sp

/-- The function `handleCmd` of `server.go`, on the state `st`; `Listen`
tells whether the `net.Listen` of the goroutine `lfwd` that the call may
start succeeds. -/
def handleCmd (Listen : GoString → Bool) (st : State) (buf : GoString) : Outcome :=
  let argv := argvOf buf
  match argv with
  | [] => .indexOutOfRange
  | argv0 :: _ =>
    if argv0 = str "!exit" then
      .returned buf ⟨[.exit], [], []⟩ st
    else if argv0 = str "!download" then
      match argv with
      | [_, _, dst] => .returned buf ⟨[.DownloadListen dst], [], []⟩ st
      | _ => .returned buf Effects.none st
    else if argv0 = str "!lfwd" then
      match argv with
      | [_, lport, raddr, rport] =>
        let fwd := mkForward lport rport raddr st.chans
        if portAvailable st.activeForwards lport then
          .returned buf ⟨[.lfwd fwd], [], []⟩
            { activeForwards := st.activeForwards ++ [fwd], chans := st.chans + 1,
              receivers := st.receivers ++ (lfwd Listen fwd).receivers }
        else
          .returned buf
            ⟨[], [], [str "Can not comply - Local Port " ++ lport ++ str " already in use.\n"]⟩
            { st with chans := st.chans + 1 }
      | _ => .returned buf Effects.none st
    else if argv0 = str "!rfwd" then
      match argv with
      | [_, lport, raddr, rport] =>
        let fwd := mkForward lport rport raddr st.chans
        .returned buf ⟨[.rfwd fwd], [], []⟩
          { activeForwards := st.activeForwards ++ [fwd], chans := st.chans + 1,
            receivers := st.receivers ++ [rfwd fwd] }
      | _ => .returned buf Effects.none st
    else if argv0 = str "!rmfwd" then
      match argv with
      | [_, arg] =>
        let index := (strconv.Atoi arg).1
        if index < 0 then .indexOutOfRange
        else
          match st.activeForwards[index.toNat]? with
          | none => .indexOutOfRange
          | some forward =>
            if forward.Quit ∈ st.receivers then
              .returned buf ⟨[], [forward.Quit], []⟩
                { st with
                  activeForwards :=
                    st.activeForwards.take index.toNat ++
                      st.activeForwards.drop (index.toNat + 1),
                  receivers := st.receivers.erase forward.Quit }
            else .blockedOnSend forward.Quit st
      | _ => .returned buf Effects.none st
    else if argv0 = str "!upload" then
      match argv with
      | [_, src, _] => .returned buf ⟨[.UploadListen src], [], []⟩ st
      | _ => .returned buf Effects.none st
    else if argv0 = str "!net" then
      match argv with
      | _ :: src :: _ :: _ => .returned buf ⟨[.UploadListen src], [], []⟩ st
      | _ => .returned buf Effects.none st
    else .returned buf Effects.none st

/-- Go `copy(dst, src)`: the slice `dst` afterwards. -/
def copy (dst src : GoString) : GoString :=
  src.take dst.length ++ dst.drop src.length

/-- The method `augWriter.Write` with `augFunc = handleCmd`: the outcome
whose returned bytes are what the inner writer is given. -/
def augWriter.Write (Listen : GoString → Bool) (st : State) (buf : GoString) : Outcome :=
  handleCmd Listen st buf

/-- The method `augReader.Read` with `augFunc = handleCmd`, when the inner
reader places the bytes `data` (at most `len(buf)` of them) in `tmpBuf`: the
outcome whose returned bytes are the caller's `buf` afterwards. -/
def augReader.Read (Listen : GoString → Bool) (st : State) (buf data : GoString) :
    Outcome :=
  match handleCmd Listen st data with
  | .returned out eff st1 =>
    .returned (copy (buf.take data.length) out ++ buf.drop data.length) eff st1
  | .indexOutOfRange => .indexOutOfRange
  | .blockedOnSend ch st1 => .blockedOnSend ch st1

/-- Every `net.Listen` succeeds. -/
def listenOk : GoString → Bool := fun _ => true

end server

/-! ## Command lines -/

namespace server

open utils

/-- The tokens of a command line, joined by single spaces. -/
def joinSp : List GoString → GoString
  | [] => []
  | [t] => t
  | t :: u :: ts => t ++ sp :: joinSp (u :: ts)

/-- The line terminators a command line may carry: none, `"\n"` or
`"\r\n"`. -/
def terminators : List GoString := [[], str "\n", str "\r\n"]

/-- The chunk that holds the tokens `toks` (the verb and its arguments),
separated by single spaces, followed by the terminator `term`. -/
def commandLine (toks : List GoString) (term : GoString) : GoString :=
  joinSp toks ++ term

/-- A token of a command line: a byte string without space, carriage
return or line feed. -/
def IsToken (t : GoString) : Prop := sp ∉ t ∧ cr ∉ t ∧ lf ∉ t

instance (t : GoString) : Decidable (IsToken t) := by
  unfold IsToken
  infer_instance

/-- The byte `!` every verb starts with. -/
def bang : Byte := 33

/-- The token lists on which `handleCmd` enters a branch that does
something: `!exit` whatever follows it, `!download` and `!upload` with three
tokens, `!lfwd` and `!rfwd` with four, `!rmfwd` with two, `!net` with at
least three. -/
def Dispatched (argv : List GoString) : Prop :=
  argv.head? = some (str "!exit")
  ∨ (argv.head? = some (str "!download") ∧ argv.length = 3)
  ∨ (argv.head? = some (str "!upload") ∧ argv.length = 3)
  ∨ (argv.head? = some (str "!lfwd") ∧ argv.length = 4)
  ∨ (argv.head? = some (str "!rfwd") ∧ argv.length = 4)
  ∨ (argv.head? = some (str "!rmfwd") ∧ argv.length = 2)
  ∨ (argv.head? = some (str "!net") ∧ 3 ≤ argv.length)

/-- The verbs of the dispatcher table, each with the number of arguments
`handleCmd` asks for. -/
def verbTable : List (GoString × Nat) :=
  [(str "!exit", 0), (str "!download", 2), (str "!upload", 2), (str "!lfwd", 3),
    (str "!rfwd", 3), (str "!rmfwd", 1)]

instance (argv : List GoString) : Decidable (Dispatched argv) := by
  unfold Dispatched
  infer_instance

/-- The forward that `!lfwd 9000 10.0.0.5 22` or `!rfwd 9000 10.0.0.5 22`
registers when `n` channels were made before it. -/
def fwd9000 (n : Nat) : Forward :=
  mkForward (str "9000") (str "22") (str "10.0.0.5") n

/-- The forward that `!lfwd 80 10.0.0.5 22` registers when `n` channels were
made before it. -/
def fwd80 (n : Nat) : Forward :=
  mkForward (str "80") (str "22") (str "10.0.0.5") n

end server

/-! ## The standard library functions -/

namespace strings

theorem TrimSuffix_append (s suffix : GoString) : TrimSuffix (s ++ suffix) suffix = s := by
  unfold TrimSuffix
  rw [if_pos (by simp)]
  simp

theorem TrimSuffix_of_not_mem {s suffix : GoString} {c : Byte} (hc : c ∈ suffix)
    (hs : c ∉ s) : TrimSuffix s suffix = s := by
  unfold TrimSuffix
  rw [if_neg]
  intro h
  rw [List.isSuffixOf_iff_suffix] at h
  exact hs (h.subset hc)

theorem mem_of_mem_TrimSuffix {s suffix : GoString} {c : Byte}
    (h : c ∈ TrimSuffix s suffix) : c ∈ s := by
  unfold TrimSuffix at h
  split at h
  · exact List.mem_of_mem_take h
  · exact h

theorem Split_ne_nil (s : GoString) (sep : Byte) : Split s sep ≠ [] := by
  cases s with
  | nil => simp [Split]
  | cons c cs =>
    unfold Split
    split
    · simp
    · split <;> simp

theorem Split_of_not_mem {s : GoString} {sep : Byte} (h : sep ∉ s) : Split s sep = [s] := by
  induction s with
  | nil => rfl
  | cons c cs ih =>
    have hc : c ≠ sep := fun e => h (e ▸ List.mem_cons_self _ _)
    have hcs : sep ∉ cs := fun m => h (List.mem_cons_of_mem _ m)
    simp [Split, hc, ih hcs]

theorem Split_append_sep {x : GoString} (y : GoString) {sep : Byte} (h : sep ∉ x) :
    Split (x ++ sep :: y) sep = x :: Split y sep := by
  induction x with
  | nil => simp [Split]
  | cons c cs ih =>
    have hc : c ≠ sep := fun e => h (e ▸ List.mem_cons_self _ _)
    have hcs : sep ∉ cs := fun m => h (List.mem_cons_of_mem _ m)
    simp [Split, hc, ih hcs]

theorem length_Split (s : GoString) (sep : Byte) :
    (Split s sep).length = s.count sep + 1 := by
  induction s with
  | nil => rfl
  | cons c cs ih =>
    unfold Split
    by_cases hc : c = sep
    · subst hc
      simp [ih]
    · rw [if_neg hc]
      have hne := Split_ne_nil cs sep
      cases hsp : Split cs sep with
      | nil => exact absurd hsp hne
      | cons t ts =>
        rw [hsp] at ih
        simp only [List.length_cons] at ih ⊢
        rw [List.count_cons_of_ne (Ne.symm hc)]
        exact ih

theorem mem_of_mem_Split {s : GoString} {sep : Byte} :
    ∀ {t : GoString}, t ∈ Split s sep → ∀ {c : Byte}, c ∈ t → c ∈ s := by
  induction s with
  | nil =>
    intro t ht c hc
    simp [Split] at ht
    subst ht
    exact hc
  | cons a as ih =>
    intro t ht c hc
    unfold Split at ht
    by_cases ha : a = sep
    · rw [if_pos ha] at ht
      rcases List.mem_cons.1 ht with e | m
      · subst e
        exact absurd hc (List.not_mem_nil _)
      · exact List.mem_cons_of_mem _ (ih m hc)
    · rw [if_neg ha] at ht
      cases hsp : Split as sep with
      | nil => exact absurd hsp (Split_ne_nil as sep)
      | cons u us =>
        rw [hsp] at ht ih
        rcases List.mem_cons.1 ht with e | m
        · subst e
          rcases List.mem_cons.1 hc with e2 | m2
          · exact e2 ▸ List.mem_cons_self _ _
          · exact List.mem_cons_of_mem _ (ih (List.mem_cons_self _ _) m2)
        · exact List.mem_cons_of_mem _ (ih (List.mem_cons_of_mem _ m) hc)

end strings

namespace strconv

theorem digit_digitByte {d : Nat} (h : d < 10) : digit (digitByte d) = some d := by
  interval_cases d <;> rfl

theorem digitByte_val {d : Nat} (h : d < 10) : (digitByte d).val = 48 + d := by
  interval_cases d <;> rfl

theorem parseUintLoop_append (xs ys : GoString) (n : Nat) :
    parseUintLoop (xs ++ ys) n =
      match parseUintLoop xs n with
      | .ok m => parseUintLoop ys m
      | .errSyntax => .errSyntax
      | .errRange => .errRange := by
  induction xs generalizing n with
  | nil => rfl
  | cons c cs ih =>
    simp only [List.cons_append, parseUintLoop]
    cases digit c with
    | none => rfl
    | some d =>
      simp only []
      split
      · rfl
      · split
        · rfl
        · exact ih _

theorem parseUintLoop_itoaDigits (fuel n : Nat) (h : n < fuel) (hn : n ≤ maxUint64) :
    parseUintLoop (itoaDigits fuel n) 0 = .ok n := by
  have hmax : maxUint64 = 18446744073709551615 := by decide
  induction fuel generalizing n with
  | zero => omega
  | succ fuel ih =>
    unfold itoaDigits
    by_cases hlt : n < 10
    · rw [if_pos hlt]
      simp only [parseUintLoop, digit_digitByte hlt]
      rw [if_neg (by rw [hmax]; omega), if_neg (by rw [hmax]; omega)]
      simp
    · rw [if_neg hlt, parseUintLoop_append, ih (n / 10) (by omega) (by omega)]
      simp only [parseUintLoop, digit_digitByte (Nat.mod_lt n (by decide))]
      rw [if_neg (by rw [hmax]; omega), if_neg (by rw [hmax]; omega)]
      congr 1
      omega

theorem itoaDigits_ne_nil (fuel n : Nat) : itoaDigits (fuel + 1) n ≠ [] := by
  unfold itoaDigits
  split <;> simp

theorem mem_itoaDigits {fuel n : Nat} {c : Byte} (h : c ∈ itoaDigits fuel n) :
    48 ≤ c.val ∧ c.val ≤ 57 := by
  induction fuel generalizing n with
  | zero => simp [itoaDigits] at h
  | succ fuel ih =>
    unfold itoaDigits at h
    by_cases hn : n < 10
    · rw [if_pos hn] at h
      rw [List.mem_singleton.1 h, digitByte_val hn]
      omega
    · rw [if_neg hn] at h
      rcases List.mem_append.1 h with m | m
      · exact ih m
      · rw [List.mem_singleton.1 m, digitByte_val (Nat.mod_lt n (by decide))]
        have := Nat.mod_lt n (show 0 < 10 by decide)
        omega

theorem Atoi_Itoa (i : Nat) (h : (i : Int) ≤ maxInt) : Atoi (Itoa i) = ((i : Int), true) := by
  have hne : Itoa i ≠ [] := itoaDigits_ne_nil i i
  have hhead : ∀ c, (Itoa i).head? = some c → 48 ≤ c.val ∧ c.val ≤ 57 := by
    intro c hc
    exact mem_itoaDigits (List.mem_of_mem_head? hc)
  have h45 : (Itoa i).head? ≠ some 45 := fun e => by
    have := hhead _ e
    revert this
    decide
  have h43 : (Itoa i).head? ≠ some 43 := fun e => by
    have := hhead _ e
    revert this
    decide
  have hmax : maxInt = 9223372036854775807 := by decide
  have hp : ParseUint (Itoa i) = .ok i := by
    unfold ParseUint
    rw [if_neg hne]
    exact parseUintLoop_itoaDigits (i + 1) i (by omega)
      (by rw [hmax] at h; have : maxUint64 = 18446744073709551615 := by decide
          omega)
  unfold Atoi
  simp only [h45, h43, or_self, if_false, hp, decide_False, Bool.false_eq_true]
  rw [if_neg (not_lt.2 h)]

end strconv

/-! ## Tokens of a command line -/

namespace server

theorem str_lf : str "\n" = [lf] := by decide

theorem str_crlf : str "\r\n" = [cr, lf] := by decide

theorem mem_joinSp {toks : List GoString} {c : Byte} (h : c ∈ joinSp toks) :
    c = sp ∨ ∃ t ∈ toks, c ∈ t := by
  induction toks with
  | nil => simp [joinSp] at h
  | cons t ts ih =>
    cases ts with
    | nil => exact Or.inr ⟨t, List.mem_cons_self _ _, h⟩
    | cons u us =>
      simp only [joinSp, List.mem_append, List.mem_cons] at h
      rcases h with h | h | h
      · exact Or.inr ⟨t, List.mem_cons_self _ _, h⟩
      · exact Or.inl h
      · rcases ih h with e | ⟨v, hv, hc⟩
        · exact Or.inl e
        · exact Or.inr ⟨v, List.mem_cons_of_mem _ hv, hc⟩

theorem Split_joinSp {toks : List GoString} (hne : toks ≠ []) (h : ∀ t ∈ toks, sp ∉ t) :
    strings.Split (joinSp toks) sp = toks := by
  induction toks with
  | nil => exact absurd rfl hne
  | cons t ts ih =>
    cases ts with
    | nil => exact strings.Split_of_not_mem (h t (List.mem_cons_self _ _))
    | cons u us =>
      simp only [joinSp]
      rw [strings.Split_append_sep _ (h t (List.mem_cons_self _ _)),
        ih (by simp) (fun v hv => h v (List.mem_cons_of_mem _ hv))]

theorem argvOf_of_not_mem {buf : GoString} (h : lf ∉ buf) :
    argvOf buf = strings.Split buf sp := by
  unfold argvOf
  simp only [str_lf, str_crlf]
  rw [strings.TrimSuffix_of_not_mem (c := lf) (by simp) h,
    strings.TrimSuffix_of_not_mem (c := lf) (by simp) h]

theorem argvOf_append_term {x term : GoString} (hcr : cr ∉ x) (hlf : lf ∉ x)
    (ht : term ∈ terminators) : argvOf (x ++ term) = strings.Split x sp := by
  unfold argvOf
  simp only [terminators, str_lf, str_crlf, List.mem_cons, List.mem_singleton,
    List.not_mem_nil, or_false] at ht ⊢
  rcases ht with rfl | rfl | rfl
  · rw [List.append_nil, strings.TrimSuffix_of_not_mem (c := lf) (by simp) hlf,
      strings.TrimSuffix_of_not_mem (c := lf) (by simp) hlf]
  · rw [strings.TrimSuffix_of_not_mem (c := cr) (s := x ++ [lf]) (by simp)
        (by simp [hcr]; decide),
      strings.TrimSuffix_append]
  · rw [strings.TrimSuffix_append, strings.TrimSuffix_of_not_mem (c := lf) (by simp) hlf]

theorem argvOf_commandLine {toks : List GoString} {term : GoString} (hne : toks ≠ [])
    (h : ∀ t ∈ toks, IsToken t) (ht : term ∈ terminators) :
    argvOf (commandLine toks term) = toks := by
  have hsp : sp ≠ cr ∧ sp ≠ lf := by decide
  unfold commandLine
  rw [argvOf_append_term _ _ ht, Split_joinSp hne (fun t m => (h t m).1)]
  · intro m
    rcases mem_joinSp m with e | ⟨t, ht', hc⟩
    · exact hsp.1 e.symm
    · exact (h t ht').2.1 hc
  · intro m
    rcases mem_joinSp m with e | ⟨t, ht', hc⟩
    · exact hsp.2 e.symm
    · exact (h t ht').2.2 hc

theorem argvOf_ne_nil (buf : GoString) : argvOf buf ≠ [] :=
  strings.Split_ne_nil _ _

end server

/-! ## The branches of `handleCmd` -/

namespace server

open utils

theorem handleCmd_exit {Listen : GoString → Bool} {st : State} {buf : GoString} {args : List GoString}
    (h : argvOf buf = str "!exit" :: args) :
    handleCmd Listen st buf = .returned buf ⟨[.exit], [], []⟩ st := by
  unfold handleCmd
  rw [h]
  rfl

theorem handleCmd_download {Listen : GoString → Bool} {st : State} {buf x dst : GoString}
    (h : argvOf buf = [str "!download", x, dst]) :
    handleCmd Listen st buf = .returned buf ⟨[.DownloadListen dst], [], []⟩ st := by
  unfold handleCmd
  rw [h]
  rfl

theorem handleCmd_upload {Listen : GoString → Bool} {st : State} {buf src x : GoString}
    (h : argvOf buf = [str "!upload", src, x]) :
    handleCmd Listen st buf = .returned buf ⟨[.UploadListen src], [], []⟩ st := by
  unfold handleCmd
  rw [h]
  rfl

theorem handleCmd_net {Listen : GoString → Bool} {st : State} {buf src x : GoString} {more : List GoString}
    (h : argvOf buf = str "!net" :: src :: x :: more) :
    handleCmd Listen st buf = .returned buf ⟨[.UploadListen src], [], []⟩ st := by
  unfold handleCmd
  rw [h]
  rfl

theorem handleCmd_lfwd {Listen : GoString → Bool} {st : State}
    {buf lport raddr rport : GoString}
    (h : argvOf buf = [str "!lfwd", lport, raddr, rport]) :
    handleCmd Listen st buf =
      if portAvailable st.activeForwards lport then
        .returned buf ⟨[.lfwd (mkForward lport rport raddr st.chans)], [], []⟩
          ⟨st.activeForwards ++ [mkForward lport rport raddr st.chans], st.chans + 1,
            st.receivers ++ (lfwd Listen (mkForward lport rport raddr st.chans)).receivers⟩
      else
        .returned buf
          ⟨[], [], [str "Can not comply - Local Port " ++ lport ++ str " already in use.\n"]⟩
          ⟨st.activeForwards, st.chans + 1, st.receivers⟩ := by
  unfold handleCmd
  rw [h]
  rfl

theorem handleCmd_rfwd {Listen : GoString → Bool} {st : State}
    {buf lport raddr rport : GoString}
    (h : argvOf buf = [str "!rfwd", lport, raddr, rport]) :
    handleCmd Listen st buf =
      .returned buf ⟨[.rfwd (mkForward lport rport raddr st.chans)], [], []⟩
        ⟨st.activeForwards ++ [mkForward lport rport raddr st.chans], st.chans + 1,
          st.receivers ++ [rfwd (mkForward lport rport raddr st.chans)]⟩ := by
  unfold handleCmd
  rw [h]
  rfl

theorem handleCmd_rmfwd {Listen : GoString → Bool} {st : State} {buf arg : GoString}
    (h : argvOf buf = [str "!rmfwd", arg]) :
    handleCmd Listen st buf =
      if (strconv.Atoi arg).1 < 0 then .indexOutOfRange
      else
        match st.activeForwards[(strconv.Atoi arg).1.toNat]? with
        | none => .indexOutOfRange
        | some forward =>
          if forward.Quit ∈ st.receivers then
            .returned buf ⟨[], [forward.Quit], []⟩
              ⟨st.activeForwards.take (strconv.Atoi arg).1.toNat ++
                st.activeForwards.drop ((strconv.Atoi arg).1.toNat + 1), st.chans,
                st.receivers.erase forward.Quit⟩
          else .blockedOnSend forward.Quit st := by
  unfold handleCmd
  rw [h]
  rfl

theorem portAvailable_iff (regs : List Forward) (lport : GoString) :
    portAvailable regs lport = true ↔ ∀ f ∈ regs, f.LPort ≠ lport := by
  induction regs with
  | nil => simp [portAvailable]
  | cons f fs ih =>
    unfold portAvailable
    by_cases hf : f.LPort = lport
    · simp [hf]
    · simp [hf, ih]

end server

/-! ## The dispatcher -/

namespace server

open utils

theorem handleCmd_not_dispatched {Listen : GoString → Bool} {st : State} {buf : GoString}
    (h : ¬ Dispatched (argvOf buf)) : handleCmd Listen st buf = .returned buf Effects.none st := by
  unfold handleCmd
  cases hargv : argvOf buf with
  | nil => exact absurd hargv (argvOf_ne_nil buf)
  | cons v args =>
    rw [hargv] at h
    simp only [Dispatched, List.head?_cons, Option.some.injEq, List.length_cons, not_or,
      not_and] at h
    obtain ⟨h1, h2, h3, h4, h5, h6, h7⟩ := h
    simp only []
    rw [if_neg h1]
    split_ifs with c2 c3 c4 c5 c6 c7
    · have := h2 c2
      split
      · rename_i heq
        have hl := congrArg List.length heq
        simp only [List.length_cons, List.length_nil] at hl
        omega
      · rfl
    · have := h4 c3
      split
      · rename_i heq
        have hl := congrArg List.length heq
        simp only [List.length_cons, List.length_nil] at hl
        omega
      · rfl
    · have := h5 c4
      split
      · rename_i heq
        have hl := congrArg List.length heq
        simp only [List.length_cons, List.length_nil] at hl
        omega
      · rfl
    · have := h6 c5
      split
      · rename_i heq
        have hl := congrArg List.length heq
        simp only [List.length_cons, List.length_nil] at hl
        omega
      · rfl
    · have := h3 c6
      split
      · rename_i heq
        have hl := congrArg List.length heq
        simp only [List.length_cons, List.length_nil] at hl
        omega
      · rfl
    · have := h7 c7
      split
      · rename_i heq
        have hl := congrArg List.length heq
        simp only [List.length_cons, List.length_nil] at hl
        omega
      · rfl
    · rfl

theorem shape_of_head {l : List GoString} {v : GoString} (h : l.head? = some v) :
    ∃ args, l = v :: args := by
  cases l with
  | nil => simp at h
  | cons a as =>
    simp only [List.head?_cons, Option.some.injEq] at h
    exact ⟨as, by rw [h]⟩

theorem shape_two {l : List GoString} {v : GoString} (h : l.head? = some v)
    (hl : l.length = 2) : ∃ a, l = [v, a] := by
  obtain ⟨args, rfl⟩ := shape_of_head h
  rcases args with _ | ⟨a, _ | ⟨b, t⟩⟩
  · simp at hl
  · exact ⟨a, rfl⟩
  · simp at hl

theorem shape_three {l : List GoString} {v : GoString} (h : l.head? = some v)
    (hl : l.length = 3) : ∃ a b, l = [v, a, b] := by
  obtain ⟨args, rfl⟩ := shape_of_head h
  rcases args with _ | ⟨a, _ | ⟨b, _ | ⟨c, t⟩⟩⟩
  · simp at hl
  · simp at hl
  · exact ⟨a, b, rfl⟩
  · simp at hl

theorem shape_four {l : List GoString} {v : GoString} (h : l.head? = some v)
    (hl : l.length = 4) : ∃ a b c, l = [v, a, b, c] := by
  obtain ⟨args, rfl⟩ := shape_of_head h
  rcases args with _ | ⟨a, _ | ⟨b, _ | ⟨c, _ | ⟨d, t⟩⟩⟩⟩
  · simp at hl
  · simp at hl
  · simp at hl
  · exact ⟨a, b, c, rfl⟩
  · simp at hl

theorem shape_three_le {l : List GoString} {v : GoString} (h : l.head? = some v)
    (hl : 3 ≤ l.length) : ∃ a b more, l = v :: a :: b :: more := by
  obtain ⟨args, rfl⟩ := shape_of_head h
  rcases args with _ | ⟨a, _ | ⟨b, t⟩⟩
  · simp at hl
  · simp at hl
  · exact ⟨a, b, t, rfl⟩

theorem Dispatched_shapes {l : List GoString} (h : Dispatched l) :
    (∃ args, l = str "!exit" :: args)
    ∨ (∃ x dst, l = [str "!download", x, dst])
    ∨ (∃ src x, l = [str "!upload", src, x])
    ∨ (∃ p a r, l = [str "!lfwd", p, a, r])
    ∨ (∃ p a r, l = [str "!rfwd", p, a, r])
    ∨ (∃ arg, l = [str "!rmfwd", arg])
    ∨ (∃ src x more, l = str "!net" :: src :: x :: more) := by
  rcases h with h | ⟨h, hl⟩ | ⟨h, hl⟩ | ⟨h, hl⟩ | ⟨h, hl⟩ | ⟨h, hl⟩ | ⟨h, hl⟩
  · exact Or.inl (shape_of_head h)
  · exact Or.inr (Or.inl (shape_three h hl))
  · exact Or.inr (Or.inr (Or.inl (shape_three h hl)))
  · exact Or.inr (Or.inr (Or.inr (Or.inl (shape_four h hl))))
  · exact Or.inr (Or.inr (Or.inr (Or.inr (Or.inl (shape_four h hl)))))
  · exact Or.inr (Or.inr (Or.inr (Or.inr (Or.inr (Or.inl (shape_two h hl))))))
  · exact Or.inr (Or.inr (Or.inr (Or.inr (Or.inr (Or.inr (shape_three_le h hl))))))

theorem handleCmd_dispatched {Listen : GoString → Bool} {st : State} {buf : GoString} (h : Dispatched (argvOf buf)) :
    handleCmd Listen st buf ≠ .returned buf Effects.none st := by
  rcases Dispatched_shapes h with ⟨args, e⟩ | ⟨x, dst, e⟩ | ⟨src, x, e⟩ | ⟨p, a, r, e⟩ |
    ⟨p, a, r, e⟩ | ⟨arg, e⟩ | ⟨src, x, more, e⟩
  · rw [handleCmd_exit e]
    simp [Effects.none]
  · rw [handleCmd_download e]
    simp [Effects.none]
  · rw [handleCmd_upload e]
    simp [Effects.none]
  · rw [handleCmd_lfwd e]
    split <;> simp [Effects.none]
  · rw [handleCmd_rfwd e]
    simp [Effects.none]
  · rw [handleCmd_rmfwd e]
    split
    · simp
    · split
      · simp
      · split <;> simp [Effects.none]
  · rw [handleCmd_net e]
    simp [Effects.none]

theorem handleCmd_returned_out {Listen : GoString → Bool} {st st1 : State} {buf out : GoString} {eff : Effects}
    (h : handleCmd Listen st buf = .returned out eff st1) : out = buf := by
  by_cases hd : Dispatched (argvOf buf)
  · rcases Dispatched_shapes hd with ⟨args, e⟩ | ⟨x, dst, e⟩ | ⟨src, x, e⟩ | ⟨p, a, r, e⟩ |
      ⟨p, a, r, e⟩ | ⟨arg, e⟩ | ⟨src, x, more, e⟩
    · rw [handleCmd_exit e] at h
      injection h with h1
      exact h1.symm
    · rw [handleCmd_download e] at h
      injection h with h1
      exact h1.symm
    · rw [handleCmd_upload e] at h
      injection h with h1
      exact h1.symm
    · rw [handleCmd_lfwd e] at h
      split at h <;>
      · injection h with h1
        exact h1.symm
    · rw [handleCmd_rfwd e] at h
      injection h with h1
      exact h1.symm
    · rw [handleCmd_rmfwd e] at h
      split at h
      · exact Outcome.noConfusion h
      · split at h
        · exact Outcome.noConfusion h
        · split at h
          · injection h with h1
            exact h1.symm
          · exact Outcome.noConfusion h
    · rw [handleCmd_net e] at h
      injection h with h1
      exact h1.symm
  · rw [handleCmd_not_dispatched hd] at h
    injection h with h1
    exact h1.symm

end server

/-! ## Registering and removing forwards -/

namespace server

open utils

theorem isToken_Itoa (i : Nat) : IsToken (strconv.Itoa i) := by
  have h : ∀ c : Byte, c ∈ strconv.Itoa i → 48 ≤ c.val := fun c hc =>
    (strconv.mem_itoaDigits hc).1
  refine ⟨fun m => ?_, fun m => ?_, fun m => ?_⟩
  · exact absurd (h _ m) (by decide)
  · exact absurd (h _ m) (by decide)
  · exact absurd (h _ m) (by decide)

theorem isToken_verb {v : GoString}
    (h : v ∈ [str "!exit", str "!download", str "!upload", str "!lfwd", str "!rfwd",
      str "!rmfwd", str "!net"]) : IsToken v := by
  revert v
  decide

theorem handleCmd_rmfwd_at {Listen : GoString → Bool} {st : State} {buf arg : GoString}
    {i : Nat} {f : Forward}
    (h : argvOf buf = [str "!rmfwd", arg]) (harg : (strconv.Atoi arg).1 = (i : Int))
    (hf : st.activeForwards[i]? = some f) :
    handleCmd Listen st buf =
      if f.Quit ∈ st.receivers then
        .returned buf ⟨[], [f.Quit], []⟩
          ⟨st.activeForwards.take i ++ st.activeForwards.drop (i + 1), st.chans,
            st.receivers.erase f.Quit⟩
      else .blockedOnSend f.Quit st := by
  rw [handleCmd_rmfwd h, harg, if_neg (by omega)]
  simp only [Int.toNat_ofNat, hf]

theorem argvOf_rmfwd_Itoa {term : GoString} (i : Nat) (hterm : term ∈ terminators) :
    argvOf (commandLine [str "!rmfwd", strconv.Itoa i] term) =
      [str "!rmfwd", strconv.Itoa i] := by
  apply argvOf_commandLine (by simp) _ hterm
  intro t ht
  rcases List.mem_cons.1 ht with e | ht
  · exact e ▸ isToken_verb (by simp)
  · rw [List.mem_singleton.1 ht]
    exact isToken_Itoa i

theorem handleCmd_rmfwd_Itoa {Listen : GoString → Bool} {st : State} {term : GoString}
    {i : Nat} {f : Forward}
    (hterm : term ∈ terminators) (hf : st.activeForwards[i]? = some f)
    (hi : (i : Int) ≤ strconv.maxInt) :
    handleCmd Listen st (commandLine [str "!rmfwd", strconv.Itoa i] term) =
      if f.Quit ∈ st.receivers then
        .returned (commandLine [str "!rmfwd", strconv.Itoa i] term) ⟨[], [f.Quit], []⟩
          ⟨st.activeForwards.take i ++ st.activeForwards.drop (i + 1), st.chans,
            st.receivers.erase f.Quit⟩
      else .blockedOnSend f.Quit st :=
  handleCmd_rmfwd_at (argvOf_rmfwd_Itoa i hterm) (by rw [strconv.Atoi_Itoa i hi]) hf

theorem handleCmd_rmfwd_receiving {Listen : GoString → Bool} {st : State}
    {term : GoString} {i : Nat} {f : Forward}
    (hterm : term ∈ terminators) (hf : st.activeForwards[i]? = some f)
    (hi : (i : Int) ≤ strconv.maxInt) (hrecv : f.Quit ∈ st.receivers) :
    handleCmd Listen st (commandLine [str "!rmfwd", strconv.Itoa i] term) =
      .returned (commandLine [str "!rmfwd", strconv.Itoa i] term) ⟨[], [f.Quit], []⟩
        ⟨st.activeForwards.take i ++ st.activeForwards.drop (i + 1), st.chans,
          st.receivers.erase f.Quit⟩ := by
  rw [handleCmd_rmfwd_Itoa hterm hf hi, if_pos hrecv]

theorem argvOf_verb_args {v : GoString} {args : List GoString} {term : GoString}
    (hv : v ∈ [str "!exit", str "!download", str "!upload", str "!lfwd", str "!rfwd",
      str "!rmfwd", str "!net"])
    (hargs : ∀ t ∈ args, IsToken t) (hterm : term ∈ terminators) :
    argvOf (commandLine (v :: args) term) = v :: args := by
  apply argvOf_commandLine (by simp) _ hterm
  intro t ht
  rcases List.mem_cons.1 ht with e | ht
  · exact e ▸ isToken_verb hv
  · exact hargs t ht

end server

/-! ## Properties of the interceptor and the dispatcher -/

namespace server

open utils

theorem rmfwd_with_receiver_removes_entry {Listen : GoString → Bool} {st : State}
    {term : GoString} {i : Nat} (j : Nat) {f : Forward}
    (hterm : term ∈ terminators) (hf : st.activeForwards[i]? = some f)
    (hi : (i : Int) ≤ strconv.maxInt) (hrecv : f.Quit ∈ st.receivers) :
    ∃ regs : List Forward,
      handleCmd Listen st (commandLine [str "!rmfwd", strconv.Itoa i] term) =
        .returned (commandLine [str "!rmfwd", strconv.Itoa i] term) ⟨[], [f.Quit], []⟩
          ⟨regs, st.chans, st.receivers.erase f.Quit⟩
      ∧ regs.length + 1 = st.activeForwards.length
      ∧ regs[j]? = if j < i then st.activeForwards[j]? else st.activeForwards[j + 1]? := by
  have hlt : i < st.activeForwards.length := (List.getElem?_eq_some.1 hf).1
  refine ⟨st.activeForwards.take i ++ st.activeForwards.drop (i + 1),
    handleCmd_rmfwd_receiving hterm hf hi hrecv, ?_, ?_⟩
  · rw [← List.eraseIdx_eq_take_drop_succ, List.length_eraseIdx_of_lt hlt]
    omega
  · rw [← List.eraseIdx_eq_take_drop_succ, List.getElem?_eraseIdx]

/-- C1, at a failing input: with an empty registry the chunk `!rmfwd 0`
makes `handleCmd` index `activeForwards` out of range, so it returns
nothing, and neither `augWriter.Write` nor `augReader.Read` delivers the
chunk. -/
theorem rmfwd_empty_registry_no_return :
    handleCmd listenOk ⟨[], 0, []⟩ (str "!rmfwd 0\n") = .indexOutOfRange
    ∧ augWriter.Write listenOk ⟨[], 0, []⟩ (str "!rmfwd 0\n") = .indexOutOfRange
    ∧ augReader.Read listenOk ⟨[], 0, []⟩ (List.replicate 16 0) (str "!rmfwd 0\n") =
        .indexOutOfRange := by
  decide

/-- C2, counterexample: `!upload` followed by exactly one argument, the
count the table gives, starts nothing. -/
theorem upload_one_argument_starts_nothing :
    handleCmd listenOk ⟨[], 0, []⟩ (str "!upload /tmp/f\n") =
      .returned (str "!upload /tmp/f\n") ⟨[], [], []⟩ ⟨[], 0, []⟩ := by
  decide

/-- C2, as amended: in every state, the registry empty or not, for each
verb followed by the number of arguments the code asks for (exit none,
download two, upload two, lfwd three, rfwd three, rmfwd one) and an optional
line terminator, `handleCmd` returns the chunk and starts exactly the
matching operation, once, and nothing else: exit; `DownloadListen` on the
second argument; `UploadListen` on the first of the two arguments; for lfwd,
when no entry of the registry has the local port, one `lfwd` task for the
forward with the local port, remote address and remote port in that order,
which is appended to the registry (a log line and no task otherwise); the
same for rfwd, without condition; for rmfwd with the decimal index `i` of an
entry `f` on whose quit channel a goroutine receives, one quit signal on
that channel and the registry without that entry.  Only the last part asks
for an entry in the registry. -/
theorem handleCmd_dispatches_table (Listen : GoString → Bool) (st : State)
    (term x y z : GoString) (i : Nat)
    (hterm : term ∈ terminators) (hx : IsToken x) (hy : IsToken y) (hz : IsToken z) :
    handleCmd Listen st (commandLine [str "!exit"] term) =
        .returned (commandLine [str "!exit"] term) ⟨[.exit], [], []⟩ st
    ∧ handleCmd Listen st (commandLine [str "!download", x, y] term) =
        .returned (commandLine [str "!download", x, y] term) ⟨[.DownloadListen y], [], []⟩ st
    ∧ handleCmd Listen st (commandLine [str "!upload", x, y] term) =
        .returned (commandLine [str "!upload", x, y] term) ⟨[.UploadListen x], [], []⟩ st
    ∧ (∃ fwd : Forward, fwd.LPort = x ∧ fwd.Addr = y ∧ fwd.RPort = z ∧ fwd.Quit = st.chans ∧
        handleCmd Listen st (commandLine [str "!lfwd", x, y, z] term) =
          if ∀ g ∈ st.activeForwards, g.LPort ≠ x then
            .returned (commandLine [str "!lfwd", x, y, z] term) ⟨[.lfwd fwd], [], []⟩
              ⟨st.activeForwards ++ [fwd], st.chans + 1,
                st.receivers ++ (lfwd Listen fwd).receivers⟩
          else
            .returned (commandLine [str "!lfwd", x, y, z] term)
              ⟨[], [], [str "Can not comply - Local Port " ++ x ++ str " already in use.\n"]⟩
              ⟨st.activeForwards, st.chans + 1, st.receivers⟩)
    ∧ (∃ fwd : Forward, fwd.LPort = x ∧ fwd.Addr = y ∧ fwd.RPort = z ∧ fwd.Quit = st.chans ∧
        handleCmd Listen st (commandLine [str "!rfwd", x, y, z] term) =
          .returned (commandLine [str "!rfwd", x, y, z] term) ⟨[.rfwd fwd], [], []⟩
            ⟨st.activeForwards ++ [fwd], st.chans + 1, st.receivers ++ [fwd.Quit]⟩)
    ∧ (∀ f : Forward, st.activeForwards[i]? = some f → (i : Int) ≤ strconv.maxInt →
        f.Quit ∈ st.receivers →
        handleCmd Listen st (commandLine [str "!rmfwd", strconv.Itoa i] term) =
          .returned (commandLine [str "!rmfwd", strconv.Itoa i] term) ⟨[], [f.Quit], []⟩
            ⟨st.activeForwards.take i ++ st.activeForwards.drop (i + 1), st.chans,
              st.receivers.erase f.Quit⟩) := by
  refine ⟨?_, ?_, ?_, ?_, ?_, ?_⟩
  · exact handleCmd_exit (argvOf_verb_args (by simp) (by simp) hterm)
  · exact handleCmd_download (argvOf_verb_args (by simp) (by simp [hx, hy]) hterm)
  · exact handleCmd_upload (argvOf_verb_args (by simp) (by simp [hx, hy]) hterm)
  · refine ⟨mkForward x z y st.chans, rfl, rfl, rfl, rfl, ?_⟩
    rw [handleCmd_lfwd (argvOf_verb_args (by simp) (by simp [hx, hy, hz]) hterm)]
    by_cases hfree : ∀ g ∈ st.activeForwards, g.LPort ≠ x
    · rw [if_pos ((portAvailable_iff _ _).2 hfree), if_pos hfree]
    · rw [if_neg (fun h => hfree ((portAvailable_iff _ _).1 h)), if_neg hfree]
  · exact ⟨mkForward x z y st.chans, rfl, rfl, rfl, rfl,
      handleCmd_rfwd (argvOf_verb_args (by simp) (by simp [hx, hy, hz]) hterm)⟩
  · intro f hf hi hrecv
    exact handleCmd_rmfwd_receiving hterm hf hi hrecv

/-- C2, at concrete inputs: with the registry empty, the arguments `9000`,
`10.0.0.5` and `22` and a line feed, each of exit, download, upload, lfwd
and rfwd is dispatched, the lfwd part being the command
`!lfwd 9000 10.0.0.5 22`, which registers the forward and starts its task;
with the registry holding the forward on port `80`, whose goroutine
receives on its quit channel, `!rmfwd 0` signals it and empties the
registry. -/
theorem handleCmd_dispatches_table_witness :
    (str "\n" ∈ terminators ∧ IsToken (str "9000") ∧ IsToken (str "10.0.0.5")
      ∧ IsToken (str "22"))
    ∧ handleCmd listenOk ⟨[], 0, []⟩ (commandLine [str "!exit"] (str "\n")) =
        .returned (commandLine [str "!exit"] (str "\n")) ⟨[.exit], [], []⟩ ⟨[], 0, []⟩
    ∧ handleCmd listenOk ⟨[], 0, []⟩
          (commandLine [str "!download", str "9000", str "10.0.0.5"] (str "\n")) =
        .returned (commandLine [str "!download", str "9000", str "10.0.0.5"] (str "\n"))
          ⟨[.DownloadListen (str "10.0.0.5")], [], []⟩ ⟨[], 0, []⟩
    ∧ handleCmd listenOk ⟨[], 0, []⟩
          (commandLine [str "!upload", str "9000", str "10.0.0.5"] (str "\n")) =
        .returned (commandLine [str "!upload", str "9000", str "10.0.0.5"] (str "\n"))
          ⟨[.UploadListen (str "9000")], [], []⟩ ⟨[], 0, []⟩
    ∧ (∃ fwd : Forward, fwd.LPort = str "9000" ∧ fwd.Addr = str "10.0.0.5"
        ∧ fwd.RPort = str "22" ∧ fwd.Quit = (⟨[], 0, []⟩ : State).chans ∧
        handleCmd listenOk ⟨[], 0, []⟩
            (commandLine [str "!lfwd", str "9000", str "10.0.0.5", str "22"] (str "\n")) =
          if ∀ g ∈ (⟨[], 0, []⟩ : State).activeForwards, g.LPort ≠ str "9000" then
            .returned
              (commandLine [str "!lfwd", str "9000", str "10.0.0.5", str "22"] (str "\n"))
              ⟨[.lfwd fwd], [], []⟩
              ⟨(⟨[], 0, []⟩ : State).activeForwards ++ [fwd],
                (⟨[], 0, []⟩ : State).chans + 1,
                (⟨[], 0, []⟩ : State).receivers ++ (lfwd listenOk fwd).receivers⟩
          else
            .returned
              (commandLine [str "!lfwd", str "9000", str "10.0.0.5", str "22"] (str "\n"))
              ⟨[], [],
                [str "Can not comply - Local Port " ++ str "9000" ++ str " already in use.\n"]⟩
              ⟨(⟨[], 0, []⟩ : State).activeForwards, (⟨[], 0, []⟩ : State).chans + 1,
                (⟨[], 0, []⟩ : State).receivers⟩)
    ∧ (∃ fwd : Forward, fwd.LPort = str "9000" ∧ fwd.Addr = str "10.0.0.5"
        ∧ fwd.RPort = str "22" ∧ fwd.Quit = (⟨[], 0, []⟩ : State).chans ∧
        handleCmd listenOk ⟨[], 0, []⟩
            (commandLine [str "!rfwd", str "9000", str "10.0.0.5", str "22"] (str "\n")) =
          .returned
            (commandLine [str "!rfwd", str "9000", str "10.0.0.5", str "22"] (str "\n"))
            ⟨[.rfwd fwd], [], []⟩
            ⟨(⟨[], 0, []⟩ : State).activeForwards ++ [fwd], (⟨[], 0, []⟩ : State).chans + 1,
              (⟨[], 0, []⟩ : State).receivers ++ [fwd.Quit]⟩)
    ∧ ((⟨[fwd80 0], 1, [0]⟩ : State).activeForwards[0]? = some (fwd80 0)
      ∧ ((0 : Nat) : Int) ≤ strconv.maxInt
      ∧ (fwd80 0).Quit ∈ (⟨[fwd80 0], 1, [0]⟩ : State).receivers
      ∧ handleCmd listenOk ⟨[fwd80 0], 1, [0]⟩
            (commandLine [str "!rmfwd", strconv.Itoa 0] (str "\n")) =
          .returned (commandLine [str "!rmfwd", strconv.Itoa 0] (str "\n"))
            ⟨[], [(fwd80 0).Quit], []⟩
            ⟨(⟨[fwd80 0], 1, [0]⟩ : State).activeForwards.take 0 ++
                (⟨[fwd80 0], 1, [0]⟩ : State).activeForwards.drop (0 + 1),
              (⟨[fwd80 0], 1, [0]⟩ : State).chans,
              (⟨[fwd80 0], 1, [0]⟩ : State).receivers.erase (fwd80 0).Quit⟩) :=
  have h0 := handleCmd_dispatches_table listenOk ⟨[], 0, []⟩ (str "\n") (str "9000")
    (str "10.0.0.5") (str "22") 0 (by decide) (by decide) (by decide) (by decide)
  have h1 := handleCmd_dispatches_table listenOk ⟨[fwd80 0], 1, [0]⟩ (str "\n") (str "9000")
    (str "10.0.0.5") (str "22") 0 (by decide) (by decide) (by decide) (by decide)
  ⟨⟨by decide, by decide, by decide, by decide⟩, h0.1, h0.2.1, h0.2.2.1, h0.2.2.2.1,
    h0.2.2.2.2.1, rfl, by decide, by decide,
    h1.2.2.2.2.2 (fwd80 0) rfl (by decide) (by decide)⟩

/-- C3, counterexample: `!exit` with an argument, `!upload` with two
arguments and the verb `!net`, which the table does not have, each start an
operation. -/
theorem exit_upload_net_outside_table_start_operations :
    handleCmd listenOk ⟨[], 0, []⟩ (str "!exit now\n") =
        .returned (str "!exit now\n") ⟨[.exit], [], []⟩ ⟨[], 0, []⟩
    ∧ handleCmd listenOk ⟨[], 0, []⟩ (str "!upload a b\n") =
        .returned (str "!upload a b\n") ⟨[.UploadListen (str "a")], [], []⟩ ⟨[], 0, []⟩
    ∧ handleCmd listenOk ⟨[], 0, []⟩ (str "!net a b\n") =
        .returned (str "!net a b\n") ⟨[.UploadListen (str "a")], [], []⟩ ⟨[], 0, []⟩ := by
  decide

/-- C3, as amended: on every chunk whose first token is none of `!exit`,
`!download`, `!upload`, `!lfwd`, `!rfwd`, `!rmfwd` and `!net`, or is
`!download` or `!upload` with other than two arguments, `!lfwd` or `!rfwd`
with other than three, `!rmfwd` with other than one, or `!net` with fewer
than two, `handleCmd` is a silent no-op: it returns the chunk, starts
nothing, sends nothing, logs nothing and leaves the state as it was. -/
theorem handleCmd_silent_outside_dispatch (Listen : GoString → Bool) (st : State)
    (buf : GoString) (h : ¬ Dispatched (argvOf buf)) :
    handleCmd Listen st buf = .returned buf Effects.none st :=
  handleCmd_not_dispatched h

/-- C3, at concrete inputs: an unknown verb, and `!lfwd` with one argument
where it takes three, in a registry that holds one forward. -/
theorem handleCmd_silent_outside_dispatch_witness :
    (¬ Dispatched (argvOf (str "!shell now\n"))
      ∧ handleCmd listenOk ⟨[fwd9000 0], 1, [0]⟩ (str "!shell now\n") =
          .returned (str "!shell now\n") Effects.none ⟨[fwd9000 0], 1, [0]⟩)
    ∧ (¬ Dispatched (argvOf (str "!lfwd 8080\r\n"))
      ∧ handleCmd listenOk ⟨[fwd9000 0], 1, [0]⟩ (str "!lfwd 8080\r\n") =
          .returned (str "!lfwd 8080\r\n") Effects.none ⟨[fwd9000 0], 1, [0]⟩) :=
  ⟨⟨by decide, handleCmd_silent_outside_dispatch listenOk ⟨[fwd9000 0], 1, [0]⟩
      (str "!shell now\n") (by decide)⟩,
    ⟨by decide, handleCmd_silent_outside_dispatch listenOk ⟨[fwd9000 0], 1, [0]⟩
      (str "!lfwd 8080\r\n") (by decide)⟩⟩

/-- C4: when the registry holds an entry with local port `p`, the command
`!lfwd p a r` is refused: `handleCmd` returns the chunk, starts no task,
sends nothing, logs the refusal, and the registry is the same list. -/
theorem lfwd_on_used_port_refused (Listen : GoString → Bool) (st : State)
    (p a r term : GoString)
    (hp : IsToken p) (ha : IsToken a) (hr : IsToken r) (hterm : term ∈ terminators)
    (hused : ∃ g ∈ st.activeForwards, g.LPort = p) :
    handleCmd Listen st (commandLine [str "!lfwd", p, a, r] term) =
      .returned (commandLine [str "!lfwd", p, a, r] term)
        ⟨[], [], [str "Can not comply - Local Port " ++ p ++ str " already in use.\n"]⟩
        ⟨st.activeForwards, st.chans + 1, st.receivers⟩ := by
  rw [handleCmd_lfwd (argvOf_verb_args (by simp) (by simp [hp, ha, hr]) hterm)]
  obtain ⟨g, hg, hgp⟩ := hused
  rw [if_neg]
  intro h
  exact (portAvailable_iff _ _).1 h g hg hgp

/-- C4, at a concrete input: the registry holds the forward of
`!lfwd 9000 10.0.0.5 22`, and `!lfwd 9000 10.0.0.9 80` is refused. -/
theorem lfwd_on_used_port_refused_witness :
    (IsToken (str "9000") ∧ IsToken (str "10.0.0.9") ∧ IsToken (str "80")
      ∧ str "\n" ∈ terminators
      ∧ ∃ g ∈ (⟨[fwd9000 0], 1, [0]⟩ : State).activeForwards, g.LPort = str "9000")
    ∧ handleCmd listenOk ⟨[fwd9000 0], 1, [0]⟩
        (commandLine [str "!lfwd", str "9000", str "10.0.0.9", str "80"] (str "\n")) =
      .returned (commandLine [str "!lfwd", str "9000", str "10.0.0.9", str "80"] (str "\n"))
        ⟨[], [],
          [str "Can not comply - Local Port " ++ str "9000" ++ str " already in use.\n"]⟩
        ⟨[fwd9000 0], 2, [0]⟩ :=
  ⟨⟨by decide, by decide, by decide, by decide, fwd9000 0, by simp, rfl⟩,
    lfwd_on_used_port_refused listenOk ⟨[fwd9000 0], 1, [0]⟩ (str "9000") (str "10.0.0.9")
      (str "80") (str "\n") (by decide) (by decide) (by decide) (by decide)
      ⟨fwd9000 0, by simp, rfl⟩⟩

/-- C5, counterexample: after `!rfwd 9000 10.0.0.5 22` the registry holds
one entry, made by rfwd, with local port `9000`; `!lfwd 9000 10.0.0.9 80` is
then refused: no task is started and the registry still is that one
entry. -/
theorem lfwd_refused_on_port_of_rfwd_entry :
    handleCmd listenOk ⟨[], 0, []⟩ (str "!rfwd 9000 10.0.0.5 22\n") =
        .returned (str "!rfwd 9000 10.0.0.5 22\n") ⟨[.rfwd (fwd9000 0)], [], []⟩
          ⟨[fwd9000 0], 1, [0]⟩
    ∧ handleCmd listenOk ⟨[fwd9000 0], 1, [0]⟩ (str "!lfwd 9000 10.0.0.9 80\n") =
        .returned (str "!lfwd 9000 10.0.0.9 80\n")
          ⟨[], [], [str "Can not comply - Local Port 9000 already in use.\n"]⟩
          ⟨[fwd9000 0], 2, [0]⟩ := by
  decide

/-- C5, as amended: when no entry of the registry, made by lfwd or by rfwd,
has local port `p`, the command `!lfwd p a r` appends exactly one entry,
with local port `p`, remote address `a`, remote port `r` and a newly made
quit channel, at the end of the registry, leaves the earlier entries as they
were, and starts exactly one `lfwd` task, for that entry. -/
theorem lfwd_on_unused_port_registers (Listen : GoString → Bool) (st : State)
    (p a r term : GoString)
    (hp : IsToken p) (ha : IsToken a) (hr : IsToken r) (hterm : term ∈ terminators)
    (hfree : ∀ g ∈ st.activeForwards, g.LPort ≠ p) :
    ∃ fwd : Forward, fwd.LPort = p ∧ fwd.Addr = a ∧ fwd.RPort = r ∧ fwd.Quit = st.chans ∧
      handleCmd Listen st (commandLine [str "!lfwd", p, a, r] term) =
        .returned (commandLine [str "!lfwd", p, a, r] term) ⟨[.lfwd fwd], [], []⟩
          ⟨st.activeForwards ++ [fwd], st.chans + 1,
            st.receivers ++ (lfwd Listen fwd).receivers⟩ := by
  refine ⟨mkForward p r a st.chans, rfl, rfl, rfl, rfl, ?_⟩
  rw [handleCmd_lfwd (argvOf_verb_args (by simp) (by simp [hp, ha, hr]) hterm),
    if_pos ((portAvailable_iff _ _).2 hfree)]

/-- C5, at a concrete input: the registry holds the forward on port `9000`,
and `!lfwd 8080 10.0.0.7 443` is registered after it. -/
theorem lfwd_on_unused_port_registers_witness :
    (IsToken (str "8080") ∧ IsToken (str "10.0.0.7") ∧ IsToken (str "443")
      ∧ str "\r\n" ∈ terminators
      ∧ ∀ g ∈ (⟨[fwd9000 0], 1, [0]⟩ : State).activeForwards, g.LPort ≠ str "8080")
    ∧ ∃ fwd : Forward, fwd.LPort = str "8080" ∧ fwd.Addr = str "10.0.0.7"
        ∧ fwd.RPort = str "443" ∧ fwd.Quit = (⟨[fwd9000 0], 1, [0]⟩ : State).chans ∧
      handleCmd listenOk ⟨[fwd9000 0], 1, [0]⟩
          (commandLine [str "!lfwd", str "8080", str "10.0.0.7", str "443"] (str "\r\n")) =
        .returned
          (commandLine [str "!lfwd", str "8080", str "10.0.0.7", str "443"] (str "\r\n"))
          ⟨[.lfwd fwd], [], []⟩
          ⟨(⟨[fwd9000 0], 1, [0]⟩ : State).activeForwards ++ [fwd],
            (⟨[fwd9000 0], 1, [0]⟩ : State).chans + 1,
            (⟨[fwd9000 0], 1, [0]⟩ : State).receivers ++ (lfwd listenOk fwd).receivers⟩ :=
  ⟨⟨by decide, by decide, by decide, by decide, by decide⟩,
    lfwd_on_unused_port_registers listenOk ⟨[fwd9000 0], 1, [0]⟩ (str "8080")
      (str "10.0.0.7") (str "443") (str "\r\n") (by decide) (by decide) (by decide)
      (by decide) (by decide)⟩

/-- C6, at a failing input: `net.Listen` fails for `:80`, so after
`!lfwd 80 10.0.0.5 22` the registry holds, at index `0`, a forward whose
goroutine `lfwd` has returned.  On `!rmfwd 0` the send `forward.Quit <- true`
then finds no receiver: `handleCmd` stays in it for ever, it sends no signal
that anyone receives, does not return, and the registry still holds the
entry. -/
theorem rmfwd_of_unbound_forward_never_returns :
    handleCmd (fun _ => false) ⟨[], 0, []⟩ (str "!lfwd 80 10.0.0.5 22\n") =
        .returned (str "!lfwd 80 10.0.0.5 22\n") ⟨[.lfwd (fwd80 0)], [], []⟩
          ⟨[fwd80 0], 1, []⟩
    ∧ (⟨[fwd80 0], 1, []⟩ : State).activeForwards[0]? = some (fwd80 0)
    ∧ handleCmd (fun _ => false) ⟨[fwd80 0], 1, []⟩ (str "!rmfwd 0\n") =
        .blockedOnSend (fwd80 0).Quit ⟨[fwd80 0], 1, []⟩
    ∧ augWriter.Write (fun _ => false) ⟨[fwd80 0], 1, []⟩ (str "!rmfwd 0\n") =
        .blockedOnSend (fwd80 0).Quit ⟨[fwd80 0], 1, []⟩ := by
  decide

/-- C7, at a failing input: `net.Listen` fails for `:80`, so the goroutine
`lfwd` logs and returns without listening; `handleCmd` on
`!lfwd 80 10.0.0.5 22` has appended the forward to the empty registry all
the same, and a second `!lfwd 80 10.0.0.5 22` is refused because of that
entry. -/
theorem lfwd_bind_failure_still_registered :
    lfwd (fun _ => false) (fwd80 0) = .bindFailed
    ∧ handleCmd (fun _ => false) ⟨[], 0, []⟩ (str "!lfwd 80 10.0.0.5 22\n") =
        .returned (str "!lfwd 80 10.0.0.5 22\n") ⟨[.lfwd (fwd80 0)], [], []⟩
          ⟨[fwd80 0], 1, []⟩
    ∧ handleCmd (fun _ => false) ⟨[fwd80 0], 1, []⟩ (str "!lfwd 80 10.0.0.5 22\n") =
        .returned (str "!lfwd 80 10.0.0.5 22\n")
          ⟨[], [], [str "Can not comply - Local Port 80 already in use.\n"]⟩
          ⟨[fwd80 0], 2, []⟩ := by
  decide

/-- C10, at failing inputs: with the forwards on ports `9000` and `80`
registered, `!rmfwd x` (not a number) signals the entry at index `0` and
removes it, and `!rmfwd 2` and `!rmfwd -1` (no such index) make `handleCmd`
index the registry out of range. -/
theorem rmfwd_bad_index_not_ignored :
    handleCmd listenOk ⟨[fwd9000 0, fwd80 1], 2, [0, 1]⟩ (str "!rmfwd x\n") =
        .returned (str "!rmfwd x\n") ⟨[], [(fwd9000 0).Quit], []⟩ ⟨[fwd80 1], 2, [1]⟩
    ∧ handleCmd listenOk ⟨[fwd9000 0, fwd80 1], 2, [0, 1]⟩ (str "!rmfwd 2\n") =
        .indexOutOfRange
    ∧ handleCmd listenOk ⟨[fwd9000 0, fwd80 1], 2, [0, 1]⟩ (str "!rmfwd -1\n") =
        .indexOutOfRange := by
  decide

end server

/-! ## The base64 text encoding -/

namespace base64

theorem decodeMap_encode (v : Nat) : decodeMap (encode v) = some (v % 64) := by
  have h : ∀ k : Fin 64, decodeMap (encodeStd.getD k.val 0) = some k.val := by decide
  exact h ⟨v % 64, Nat.mod_lt _ (by decide)⟩

theorem ofNat_eq_of_mod {a : Byte} {n : Nat} (h : n % 256 = a.val) :
    (Fin.ofNat n : Byte) = a :=
  Fin.ext h

theorem decodeMap_newline {c : Byte} (h : c = lf ∨ c = cr) : decodeMap c = none := by
  rcases h with rfl | rfl <;> decide

theorem decode_newlines {tail : GoString} (h : skipNewlines tail = []) :
    decode tail [] = some [] := by
  induction tail with
  | nil => rfl
  | cons c cs ih =>
    unfold skipNewlines at h
    by_cases hc : c = lf ∨ c = cr
    · rw [if_pos hc] at h
      unfold decode
      rw [decodeMap_newline hc]
      simp only [hc, if_true]
      exact ih h
    · rw [if_neg hc] at h
      exact absurd h (by simp)

theorem quantum_four (a b c : Byte) :
    quantum [(a.val * 65536 + b.val * 256 + c.val) / 262144 % 64,
      (a.val * 65536 + b.val * 256 + c.val) / 4096 % 64,
      (a.val * 65536 + b.val * 256 + c.val) / 64 % 64,
      (a.val * 65536 + b.val * 256 + c.val) % 64] = [a, b, c] := by
  have ha := a.isLt
  have hb := b.isLt
  have hc := c.isLt
  simp only [quantum, List.getD_cons_zero, List.getD_cons_succ, List.length_cons,
    List.length_nil, Nat.reduceAdd, Nat.add_one_sub_one, List.take_succ_cons, List.take_zero]
  rw [ofNat_eq_of_mod (a := a) (by omega), ofNat_eq_of_mod (a := b) (by omega),
    ofNat_eq_of_mod (a := c) (by omega)]

theorem quantum_three (a b : Byte) :
    quantum [(a.val * 65536 + b.val * 256) / 262144 % 64,
      (a.val * 65536 + b.val * 256) / 4096 % 64,
      (a.val * 65536 + b.val * 256) / 64 % 64] = [a, b] := by
  have ha := a.isLt
  have hb := b.isLt
  simp only [quantum, List.getD_cons_zero, List.getD_cons_succ, List.length_cons,
    List.length_nil, Nat.reduceAdd, Nat.add_one_sub_one, List.take_succ_cons, List.take_zero,
    List.getD_nil]
  rw [ofNat_eq_of_mod (a := a) (by omega), ofNat_eq_of_mod (a := b) (by omega)]

theorem quantum_two (a : Byte) :
    quantum [(a.val * 65536) / 262144 % 64, (a.val * 65536) / 4096 % 64] = [a] := by
  have ha := a.isLt
  simp only [quantum, List.getD_cons_zero, List.getD_cons_succ, List.length_cons,
    List.length_nil, Nat.reduceAdd, Nat.add_one_sub_one, List.take_succ_cons, List.take_zero,
    List.getD_nil]
  rw [ofNat_eq_of_mod (a := a) (by omega)]

theorem decodeMap_padChar : decodeMap padChar = none := by decide

theorem decode_group (v0 v1 v2 v3 : Nat) (rest : GoString) :
    decode (encode v0 :: encode v1 :: encode v2 :: encode v3 :: rest) [] =
      (decode rest []).map (fun out => quantum [v0 % 64, v1 % 64, v2 % 64, v3 % 64] ++ out) := by
  simp [decode, decodeMap_encode]

theorem decode_padded_one (v0 v1 v2 : Nat) {tail : GoString} (h : skipNewlines tail = []) :
    decode (encode v0 :: encode v1 :: encode v2 :: padChar :: tail) [] =
      some (quantum [v0 % 64, v1 % 64, v2 % 64]) := by
  have h1 : ¬ (padChar = lf ∨ padChar = cr) := by decide
  simp [decode, decodeMap_encode, decodeMap_padChar, h1, h]

theorem decode_padded_two (v0 v1 : Nat) {tail : GoString} (h : skipNewlines tail = []) :
    decode (encode v0 :: encode v1 :: padChar :: padChar :: tail) [] =
      some (quantum [v0 % 64, v1 % 64]) := by
  have h1 : ¬ (padChar = lf ∨ padChar = cr) := by decide
  simp [decode, decodeMap_encode, decodeMap_padChar, h1, h, skipNewlines]

theorem decode_EncodeToString (b : List Byte) {tail : GoString}
    (h : skipNewlines tail = []) : decode (EncodeToString b ++ tail) [] = some b := by
  induction b using EncodeToString.induct with
  | case1 a b c rest ih =>
    simp only [EncodeToString, List.cons_append]
    rw [decode_group, ih, Option.map_some', quantum_four]
    rfl
  | case2 a b =>
    simp only [EncodeToString, List.cons_append, List.nil_append]
    rw [decode_padded_one _ _ _ h, quantum_three]
  | case3 a =>
    simp only [EncodeToString, List.cons_append, List.nil_append]
    rw [decode_padded_two _ _ h, quantum_two]
  | case4 =>
    simp only [EncodeToString, List.nil_append]
    exact decode_newlines h

theorem DecodeString_EncodeToString (b : List Byte) :
    DecodeString (EncodeToString b) = some b := by
  have := @decode_EncodeToString b [] rfl
  rwa [List.append_nil] at this

theorem DecodeString_EncodeToString_crlf (b : List Byte) :
    DecodeString (EncodeToString b ++ str "\r\n") = some b :=
  decode_EncodeToString b (by decide)

end base64

/-! ## Saving and loading through the text encoding -/

namespace utils

theorem Save_of_decoded {fs : FS} {dst data : GoString} {b : List Byte}
    (hdec : base64.DecodeString data = some b) (hdst : fs.writable dst = true) :
    Save fs dst data = ({ fs with files := Function.update fs.files dst (some b) }, true) := by
  simp [Save, hdec, WriteFile, hdst]

/-- C9: when the file `src` holds the bytes `b` and a write to `dst`
succeeds, `Load(src)` returns the standard base64 text of `b` with `true`;
`Save(dst, ·)` accepts that text as it is, and also followed by the `"\r\n"`
that `UploadListen` appends to it on the stream (which is what
`DownloadListen` saves), returns `true`, and leaves `dst` holding exactly
`b` and every other file `name` as it was; `Load(dst)` then returns the same
base64 text with `true`. -/
theorem Save_Load_roundtrip (fs : FS) (src dst name line : GoString) (b : List Byte)
    (hsrc : ReadFile fs src = some b) (hdst : fs.writable dst = true)
    (hline : line = (Load fs src).1 ∨ line = UploadListen fs src) :
    Load fs src = (base64.EncodeToString b, true)
    ∧ UploadListen fs src = base64.EncodeToString b ++ str "\r\n"
    ∧ ∃ fs1, Save fs dst line = (fs1, true)
        ∧ DownloadListen fs dst line = (fs1, true)
        ∧ ReadFile fs1 name = (if name = dst then some b else ReadFile fs name)
        ∧ Load fs1 dst = (base64.EncodeToString b, true) := by
  have hload : Load fs src = (base64.EncodeToString b, true) := by
    simp [Load, hsrc]
  have hup : UploadListen fs src = base64.EncodeToString b ++ str "\r\n" := by
    simp [UploadListen, hload]
  have hdec : base64.DecodeString line = some b := by
    rcases hline with e | e
    · rw [e, hload]
      exact base64.DecodeString_EncodeToString b
    · rw [e, hup]
      exact base64.DecodeString_EncodeToString_crlf b
  refine ⟨hload, hup, { fs with files := Function.update fs.files dst (some b) },
    Save_of_decoded hdec hdst, Save_of_decoded hdec hdst, ?_, ?_⟩
  · by_cases hname : name = dst
    · subst hname
      simp [ReadFile]
    · simp [ReadFile, hname, Function.update_noteq hname]
  · simp [Load, ReadFile]

/-- C9, at a concrete input: the file `a.bin` holds the bytes `0, 255, 16`;
what `UploadListen` writes for it is saved as `b.bin`. -/
theorem Save_Load_roundtrip_witness :
    (ReadFile fsExample (str "a.bin") = some [0, 255, 16]
      ∧ fsExample.writable (str "b.bin") = true
      ∧ (UploadListen fsExample (str "a.bin") = (Load fsExample (str "a.bin")).1
        ∨ UploadListen fsExample (str "a.bin") = UploadListen fsExample (str "a.bin")))
    ∧ Load fsExample (str "a.bin") = (base64.EncodeToString [0, 255, 16], true)
    ∧ UploadListen fsExample (str "a.bin") =
        base64.EncodeToString [0, 255, 16] ++ str "\r\n"
    ∧ ∃ fs1, Save fsExample (str "b.bin") (UploadListen fsExample (str "a.bin")) = (fs1, true)
        ∧ DownloadListen fsExample (str "b.bin") (UploadListen fsExample (str "a.bin")) =
            (fs1, true)
        ∧ ReadFile fs1 (str "a.bin") =
            (if str "a.bin" = str "b.bin" then some [0, 255, 16]
              else ReadFile fsExample (str "a.bin"))
        ∧ Load fs1 (str "b.bin") = (base64.EncodeToString [0, 255, 16], true) :=
  ⟨⟨by decide, rfl, Or.inr rfl⟩,
    Save_Load_roundtrip fsExample (str "a.bin") (str "b.bin") (str "a.bin")
      (UploadListen fsExample (str "a.bin")) [0, 255, 16] (by decide) rfl (Or.inr rfl)⟩

end utils

/-! ## Command lines split over two chunks -/

namespace server

open utils

theorem joinSp_cons (v : GoString) (args : List GoString) :
    ∃ rest, joinSp (v :: args) = v ++ rest ∧ (∀ c ∈ rest, c = sp ∨ ∃ t ∈ args, c ∈ t)
      ∧ (args = [] → rest = []) ∧ (args ≠ [] → rest = sp :: joinSp args) := by
  cases args with
  | nil => exact ⟨[], by simp [joinSp], by simp, fun _ => rfl, fun h => absurd rfl h⟩
  | cons u us =>
    refine ⟨sp :: joinSp (u :: us), rfl, ?_, fun h => by simp at h, fun _ => rfl⟩
    intro c hc
    rcases List.mem_cons.1 hc with e | m
    · exact Or.inl e
    · exact mem_joinSp m

theorem joinSp_append_singleton (toks : List GoString) (hne : toks ≠ []) (t : GoString) :
    joinSp (toks ++ [t]) = joinSp toks ++ sp :: t := by
  induction toks with
  | nil => exact absurd rfl hne
  | cons u us ih =>
    cases us with
    | nil => simp [joinSp]
    | cons w ws =>
      have := ih (by simp)
      simp only [List.cons_append] at this ⊢
      simp only [joinSp, this, List.append_assoc, List.cons_append]

theorem count_sp_joinSp {toks : List GoString} (hne : toks ≠ []) (h : ∀ t ∈ toks, sp ∉ t) :
    (joinSp toks).count sp + 1 = toks.length := by
  rw [← strings.length_Split, Split_joinSp hne h]

theorem Dispatched_head {l : List GoString} (h : Dispatched l) :
    ∃ v, l.head? = some v ∧ bang ∈ v := by
  have hb : ∀ v ∈ [str "!exit", str "!download", str "!upload", str "!lfwd", str "!rfwd",
      str "!rmfwd", str "!net"], bang ∈ v := by decide
  rcases h with h | ⟨h, _⟩ | ⟨h, _⟩ | ⟨h, _⟩ | ⟨h, _⟩ | ⟨h, _⟩ | ⟨h, _⟩ <;>
    exact ⟨_, h, hb _ (by simp)⟩

theorem Dispatched_verb_cons {v : GoString} {n : Nat} {rest : List GoString}
    (hv : (v, n) ∈ verbTable) (hn : n ≠ 0) (h : Dispatched (v :: rest)) : rest.length = n := by
  simp only [verbTable, List.mem_cons, Prod.mk.injEq, List.mem_singleton, List.not_mem_nil,
    or_false] at hv
  rcases hv with ⟨rfl, rfl⟩ | ⟨rfl, rfl⟩ | ⟨rfl, rfl⟩ | ⟨rfl, rfl⟩ | ⟨rfl, rfl⟩ | ⟨rfl, rfl⟩ <;>
    simp +decide [Dispatched] at h <;> first | exact absurd rfl hn | exact h

theorem not_Dispatched_verb_take :
    ∀ vn ∈ verbTable, ∀ k < vn.1.length, 0 < k → ¬ Dispatched (argvOf (vn.1.take k)) := by
  decide

theorem bang_not_mem_verb_tail :
    ∀ vn ∈ verbTable, vn.1.head? = some bang ∧ bang ∉ vn.1.tail := by
  decide

theorem not_Dispatched_of_bang_not_mem {buf : GoString} (h : bang ∉ buf) :
    ¬ Dispatched (argvOf buf) := by
  intro hd
  obtain ⟨v, hv, hb⟩ := Dispatched_head hd
  have hmem : v ∈ argvOf buf := List.mem_of_mem_head? hv
  unfold argvOf at hmem
  exact h (strings.mem_of_mem_TrimSuffix (strings.mem_of_mem_TrimSuffix
    (strings.mem_of_mem_Split hmem hb)))

theorem isToken_of_verbTable {v : GoString} {n : Nat} (h : (v, n) ∈ verbTable) :
    IsToken v := by
  have : ∀ vn ∈ verbTable, IsToken vn.1 := by decide
  exact this _ h

theorem Split_head_of_append {v y : GoString} (hv : sp ∉ v)
    (hy : y = [] ∨ y.head? = some sp) : ∃ tl, strings.Split (v ++ y) sp = v :: tl := by
  rcases hy with rfl | hy
  · exact ⟨[], by rw [List.append_nil, strings.Split_of_not_mem hv]⟩
  · cases y with
    | nil => simp at hy
    | cons c cs =>
      simp only [List.head?_cons, Option.some.injEq] at hy
      subst hy
      exact ⟨_, strings.Split_append_sep cs hv⟩

theorem take_nil_or_head {l : List Byte} (m : Nat) (hl : l = [] ∨ l.head? = some sp) :
    l.take m = [] ∨ (l.take m).head? = some sp := by
  rcases hl with rfl | hl
  · exact Or.inl (by simp)
  · cases m with
    | zero => exact Or.inl (by simp)
    | succ m =>
      cases l with
      | nil => simp at hl
      | cons c cs => exact Or.inr (by simpa using hl)

theorem first_chunk_not_dispatched {verb term : GoString} {args : List GoString} {k : Nat}
    (hverb : (verb, args.length) ∈ verbTable) (hargs : ∀ t ∈ args, IsToken t)
    (hk0 : 0 < k)
    (hk : k < verb.length ∨ (args ≠ [] ∧ k ≤ (joinSp (verb :: args.dropLast)).length)) :
    ¬ Dispatched (argvOf ((commandLine (verb :: args) term).take k)) := by
  by_cases hlt : k < verb.length
  · obtain ⟨rest, hj, -, -, -⟩ := joinSp_cons verb args
    unfold commandLine
    rw [hj, List.append_assoc, List.take_append_of_le_length (le_of_lt hlt)]
    exact not_Dispatched_verb_take _ hverb k hlt hk0
  · rcases hk with hk | ⟨hne, hk⟩
    · exact absurd hk hlt
    · have hvtok : IsToken verb := isToken_of_verbTable hverb
      have htoks : ∀ t ∈ verb :: args.dropLast, IsToken t := by
        intro t ht
        rcases List.mem_cons.1 ht with e | m
        · exact e ▸ hvtok
        · exact hargs t (List.dropLast_subset _ m)
      have hsplit : verb :: args = (verb :: args.dropLast) ++ [args.getLast hne] := by
        rw [List.cons_append, List.dropLast_append_getLast hne]
      have htake : (commandLine (verb :: args) term).take k =
          (joinSp (verb :: args.dropLast)).take k := by
        unfold commandLine
        rw [hsplit, joinSp_append_singleton _ (by simp), List.append_assoc,
          List.take_append_of_le_length hk]
      rw [htake]
      have hlf : lf ∉ (joinSp (verb :: args.dropLast)).take k := by
        intro m
        rcases mem_joinSp (List.mem_of_mem_take m) with e | ⟨t, ht, hc⟩
        · exact absurd e (by decide)
        · exact (htoks t ht).2.2 hc
      rw [argvOf_of_not_mem hlf]
      intro hd
      obtain ⟨rest, hj, -, hnil, hcons⟩ := joinSp_cons verb args.dropLast
      have hrest : rest = [] ∨ rest.head? = some sp := by
        by_cases hd0 : args.dropLast = []
        · exact Or.inl (hnil hd0)
        · exact Or.inr (by rw [hcons hd0]; rfl)
      have hshape : (joinSp (verb :: args.dropLast)).take k =
          verb ++ rest.take (k - verb.length) := by
        rw [hj, List.take_append_eq_append_take, List.take_of_length_le (not_lt.1 hlt)]
      obtain ⟨tl, htl⟩ := Split_head_of_append hvtok.1
        (take_nil_or_head (k - verb.length) hrest)
      have hlen1 := strings.length_Split ((joinSp (verb :: args.dropLast)).take k) sp
      rw [hshape] at hd hlen1
      rw [htl] at hd hlen1
      have hn : args.length ≠ 0 := fun h => hne (List.length_eq_zero.1 h)
      have htll := Dispatched_verb_cons hverb hn hd
      have hcount : (verb ++ rest.take (k - verb.length)).count sp ≤
          (joinSp (verb :: args.dropLast)).count sp := by
        rw [← hshape]
        exact (List.take_sublist _ _).count_le _
      have hP := @count_sp_joinSp (verb :: args.dropLast) (by simp)
        (fun t ht => (htoks t ht).1)
      simp only [List.length_cons, List.length_dropLast] at hP hlen1
      omega

theorem second_chunk_not_dispatched {verb term : GoString} {args : List GoString} {k : Nat}
    (hverb : (verb, args.length) ∈ verbTable) (hargs : ∀ t ∈ args, bang ∉ t)
    (hterm : term ∈ terminators) (hk0 : 0 < k) :
    ¬ Dispatched (argvOf ((commandLine (verb :: args) term).drop k)) := by
  apply not_Dispatched_of_bang_not_mem
  obtain ⟨hhead, htail⟩ := bang_not_mem_verb_tail _ hverb
  obtain ⟨rest, hj, hrest, -, -⟩ := joinSp_cons verb args
  have hterm' : bang ∉ term := by
    have : ∀ t ∈ terminators, bang ∉ t := by decide
    exact this _ hterm
  have hv : verb = bang :: verb.tail := by
    cases verb with
    | nil => simp at hhead
    | cons c cs =>
      simp only [List.head?_cons, Option.some.injEq] at hhead
      rw [hhead, List.tail_cons]
  intro m
  unfold commandLine at m
  rw [hj, hv] at m
  obtain ⟨k1, rfl⟩ : ∃ k1, k = k1 + 1 := ⟨k - 1, by omega⟩
  simp only [List.cons_append, List.drop_succ_cons] at m
  have m2 := List.mem_of_mem_drop m
  rcases List.mem_append.1 m2 with m3 | m3
  · rcases List.mem_append.1 m3 with m4 | m4
    · exact htail m4
    · rcases hrest _ m4 with e | ⟨t, ht, hc⟩
      · exact absurd e (by decide)
      · exact hargs t ht hc
  · exact hterm' m3

theorem Dispatched_of_verbTable {v : GoString} {n : Nat} {rest : List GoString}
    (hv : (v, n) ∈ verbTable) (h : rest.length = n) : Dispatched (v :: rest) := by
  simp only [verbTable, List.mem_cons, Prod.mk.injEq, List.mem_singleton, List.not_mem_nil,
    or_false] at hv
  rcases hv with ⟨rfl, rfl⟩ | ⟨rfl, rfl⟩ | ⟨rfl, rfl⟩ | ⟨rfl, rfl⟩ | ⟨rfl, rfl⟩ | ⟨rfl, rfl⟩ <;>
    simp [Dispatched, h]

theorem first_chunk_dispatched_past_last_separator {verb term : GoString}
    {args : List GoString} {k : Nat}
    (hverb : (verb, args.length) ∈ verbTable) (hargs : ∀ t ∈ args, IsToken t)
    (hne : args ≠ []) (hk1 : (joinSp (verb :: args.dropLast)).length < k)
    (hk2 : k ≤ (joinSp (verb :: args)).length) :
    Dispatched (argvOf ((commandLine (verb :: args) term).take k)) := by
  have hvtok : IsToken verb := isToken_of_verbTable hverb
  have hlast : IsToken (args.getLast hne) := hargs _ (List.getLast_mem hne)
  have hsplit : verb :: args = (verb :: args.dropLast) ++ [args.getLast hne] := by
    rw [List.cons_append, List.dropLast_append_getLast hne]
  have hj : joinSp (verb :: args) =
      joinSp (verb :: args.dropLast) ++ sp :: args.getLast hne := by
    rw [hsplit, joinSp_append_singleton _ (by simp)]
  obtain ⟨m, hm⟩ : ∃ m, k = (joinSp (verb :: args.dropLast)).length + (m + 1) :=
    ⟨k - (joinSp (verb :: args.dropLast)).length - 1, by omega⟩
  have htake : (commandLine (verb :: args) term).take k =
      joinSp ((verb :: args.dropLast) ++ [(args.getLast hne).take m]) := by
    unfold commandLine
    rw [List.take_append_of_le_length hk2, hj, joinSp_append_singleton _ (by simp), hm,
      List.take_append, List.take_succ_cons]
  have htoks : ∀ t ∈ (verb :: args.dropLast) ++ [(args.getLast hne).take m], IsToken t := by
    intro t ht
    rcases List.mem_append.1 ht with h1 | h1
    · rcases List.mem_cons.1 h1 with e | h2
      · exact e ▸ hvtok
      · exact hargs t (List.dropLast_subset _ h2)
    · rw [List.mem_singleton.1 h1]
      exact ⟨fun h => hlast.1 (List.mem_of_mem_take h),
        fun h => hlast.2.1 (List.mem_of_mem_take h),
        fun h => hlast.2.2 (List.mem_of_mem_take h)⟩
  have hlf : lf ∉ joinSp ((verb :: args.dropLast) ++ [(args.getLast hne).take m]) := by
    intro h
    rcases mem_joinSp h with e | ⟨t, ht, hc⟩
    · exact absurd e (by decide)
    · exact (htoks t ht).2.2 hc
  rw [htake, argvOf_of_not_mem hlf, Split_joinSp (by simp) (fun t ht => (htoks t ht).1)]
  have hpos : 0 < args.length := List.length_pos.2 hne
  have hlen : (args.dropLast ++ [(args.getLast hne).take m]).length = args.length := by
    rw [List.length_append, List.length_dropLast, List.length_singleton]
    omega
  exact Dispatched_of_verbTable hverb hlen

/-- C8, counterexample: three well-formed command lines, each split into
two non-empty chunks, of which one chunk is dispatched.  `!exit` before its
line feed runs exit; `!lfwd 9000 10.0.0.5 2` before `2` and the line feed
registers a forward to remote port `2`; of `!download !exit b`, the second
chunk `!exit b` runs exit. -/
theorem split_command_line_dispatched :
    ((str "!exit\n").take 5 = str "!exit" ∧ (str "!exit\n").drop 5 = str "\n"
      ∧ handleCmd listenOk ⟨[], 0, []⟩ (str "!exit") =
          .returned (str "!exit") ⟨[.exit], [], []⟩ ⟨[], 0, []⟩)
    ∧ ((str "!lfwd 9000 10.0.0.5 22\n").take 21 = str "!lfwd 9000 10.0.0.5 2"
      ∧ (str "!lfwd 9000 10.0.0.5 22\n").drop 21 = str "2\n"
      ∧ handleCmd listenOk ⟨[], 0, []⟩ (str "!lfwd 9000 10.0.0.5 2") =
          .returned (str "!lfwd 9000 10.0.0.5 2")
            ⟨[.lfwd (mkForward (str "9000") (str "2") (str "10.0.0.5") 0)], [], []⟩
            ⟨[mkForward (str "9000") (str "2") (str "10.0.0.5") 0], 1, [0]⟩)
    ∧ ((str "!download !exit b\n").take 10 = str "!download "
      ∧ (str "!download !exit b\n").drop 10 = str "!exit b\n"
      ∧ handleCmd listenOk ⟨[], 0, []⟩ (str "!download ") =
          .returned (str "!download ") ⟨[], [], []⟩ ⟨[], 0, []⟩
      ∧ handleCmd listenOk ⟨[], 0, []⟩ (str "!exit b\n") =
          .returned (str "!exit b\n") ⟨[.exit], [], []⟩ ⟨[], 0, []⟩) := by
  decide

/-- C8, as amended: take a command line of one of the six verbs with the
number of arguments the code asks for, the arguments free of space,
carriage return, line feed and `!`, and any line terminator; split it after
`k > 0` bytes, where the first chunk ends inside the verb or, when there
are arguments, no later than the end of the last but one token (so before
the space that precedes the last argument).  Then `handleCmd`, fed the
first chunk and then the second, returns each unchanged, starts nothing,
sends nothing, logs nothing and leaves the state as it was. -/
theorem split_command_line_not_dispatched (Listen : GoString → Bool) (st : State) (verb term : GoString)
    (args : List GoString) (k : Nat)
    (hverb : (verb, args.length) ∈ verbTable)
    (hargs : ∀ t ∈ args, IsToken t ∧ bang ∉ t)
    (hterm : term ∈ terminators) (hk0 : 0 < k)
    (hk : k < verb.length ∨ (args ≠ [] ∧ k ≤ (joinSp (verb :: args.dropLast)).length)) :
    handleCmd Listen st ((commandLine (verb :: args) term).take k) =
        .returned ((commandLine (verb :: args) term).take k) Effects.none st
    ∧ handleCmd Listen st ((commandLine (verb :: args) term).drop k) =
        .returned ((commandLine (verb :: args) term).drop k) Effects.none st :=
  ⟨handleCmd_not_dispatched
      (first_chunk_not_dispatched hverb (fun t ht => (hargs t ht).1) hk0 hk),
    handleCmd_not_dispatched
      (second_chunk_not_dispatched hverb (fun t ht => (hargs t ht).2) hterm hk0)⟩

/-- C8, at a concrete input: the line `!lfwd 9000 10.0.0.5 22` with a line
feed, split after the eleven bytes `!lfwd 9000 `. -/
theorem split_command_line_not_dispatched_witness :
    ((str "!lfwd", [str "9000", str "10.0.0.5", str "22"].length) ∈ verbTable
      ∧ (∀ t ∈ [str "9000", str "10.0.0.5", str "22"], IsToken t ∧ bang ∉ t)
      ∧ str "\n" ∈ terminators ∧ 0 < 11
      ∧ (11 < (str "!lfwd").length
        ∨ ([str "9000", str "10.0.0.5", str "22"] ≠ []
          ∧ 11 ≤ (joinSp
              (str "!lfwd" :: [str "9000", str "10.0.0.5", str "22"].dropLast)).length)))
    ∧ handleCmd listenOk ⟨[], 0, []⟩
        ((commandLine (str "!lfwd" :: [str "9000", str "10.0.0.5", str "22"])
          (str "\n")).take 11) =
        .returned
          ((commandLine (str "!lfwd" :: [str "9000", str "10.0.0.5", str "22"])
            (str "\n")).take 11) Effects.none ⟨[], 0, []⟩
    ∧ handleCmd listenOk ⟨[], 0, []⟩
        ((commandLine (str "!lfwd" :: [str "9000", str "10.0.0.5", str "22"])
          (str "\n")).drop 11) =
        .returned
          ((commandLine (str "!lfwd" :: [str "9000", str "10.0.0.5", str "22"])
            (str "\n")).drop 11) Effects.none ⟨[], 0, []⟩ :=
  ⟨⟨by decide, by decide, by decide, by decide, by decide⟩,
    split_command_line_not_dispatched listenOk ⟨[], 0, []⟩ (str "!lfwd") (str "\n")
      [str "9000", str "10.0.0.5", str "22"] 11 (by decide) (by decide) (by decide)
      (by decide) (by decide)⟩

theorem augReader_Read_of_returned {Listen : GoString → Bool} {st st1 : State} {buf data : GoString} {eff : Effects}
    (hn : data.length ≤ buf.length) (h : handleCmd Listen st data = .returned data eff st1) :
    augReader.Read Listen st buf data = .returned (data ++ buf.drop data.length) eff st1 := by
  unfold augReader.Read
  rw [h]
  simp only [copy, List.length_take, Nat.min_eq_left hn, List.take_length, List.drop_take,
    Nat.sub_self, List.take_zero, List.append_nil]

end server
